import Mathlib

/-!
Verification of the PDF report generators of the `Addes4/productivity`
repository (`tmp/pdfs/generate_app_summary_pdf.py` and
`tmp/pdfs/generate_technical_walkthrough_pdf.py`).

Strings are modelled as `List Char`, bytes as `Nat` (values come out below
256 by construction).  Page coordinates, which are Python floats in the
source, are modelled as exact rationals; every coordinate the two scripts
manipulate is a small dyadic value, for which Python float arithmetic is
exact, so the rational model agrees with the source on all runs considered
here.
-/

set_option maxHeartbeats 4000000
set_option maxRecDepth 10000

/- Batteries marks the `Rat` arithmetic operations `@[irreducible]`, which
blocks `decide` from evaluating concrete rational computations; restore
their reducibility for this development (proof checking is unaffected). -/
set_option allowUnsafeReducibility true
attribute [local semireducible] Rat.add Rat.sub Rat.mul Rat.inv Rat.ofScientific

/-- Python `str.replace(old, new)` specialised to a single-character pattern
`old`, which is the only form the source uses.  Python's `replace` scans left
to right replacing non-overlapping occurrences; for a one-character pattern
that is exactly a per-character substitution. -/
def strReplace1 : List Char → Char → List Char → List Char
  | [], _, _ => []
  | c :: rest, old, new =>
    if c = old then new ++ strReplace1 rest old new
    else c :: strReplace1 rest old new

/-- `pdf_escape` from both source files: backslash is doubled first, then
each parenthesis is preceded by a backslash. -/
def pdf_escape (t : List Char) : List Char :=
  strReplace1 (strReplace1 (strReplace1 t '\\' [ '\\', '\\' ]) '(' [ '\\', '(' ]) ')' [ '\\', ')' ]

/-- Per-character view of the escaper: what `pdf_escape` does to each input
character, given that the backslash pass runs first. -/
def escChar (c : Char) : List Char :=
  if c = '\\' then [ '\\', '\\' ]
  else if c = '(' then [ '\\', '(' ]
  else if c = ')' then [ '\\', ')' ]
  else [c]

/-- Modelled from the spec: "unescaping it recovers `t`".  The PDF string
reader drops one level of backslash escaping: a backslash makes the next
character literal.  The source repository contains no reader; this is the
inverse the spec's round-trip property refers to. -/
def pdf_unescape : List Char → List Char
  | [] => []
  | [c] => if c = '\\' then [] else [c]
  | a :: b :: rest =>
    if a = '\\' then b :: pdf_unescape rest
    else a :: pdf_unescape (b :: rest)

/-- Scans a string the way a PDF literal-string reader would and reports
whether some `(` or `)` occurs unescaped (i.e. not consumed as the character
following a backslash). -/
def hasUnescapedParen : List Char → Bool
  | [] => false
  | [c] => c = '(' || c = ')'
  | a :: b :: rest =>
    if a = '\\' then hasUnescapedParen rest
    else (a = '(' : Bool) || (a = ')' : Bool) || hasUnescapedParen (b :: rest)

/-!
## The line wrapper

Both scripts wrap paragraph and bullet text with `textwrap.wrap(text, width)`
from the CPython standard library, at its default settings
(`expand_tabs=True`, `tabsize=8`, `replace_whitespace=True`,
`drop_whitespace=True`, `break_long_words=True`, `break_on_hyphens=True`,
empty indents, no `max_lines`).  The definitions below embed that algorithm:
`mungeWhitespace` is `TextWrapper._munge_whitespace`, `pySplitGo` is
`TextWrapper._split` (the `wordsep_re` tokenizer), `greedyTake`,
`handleLongWord`, `dropTrailingWs` and `wrapChunksGo` together are
`TextWrapper._wrap_chunks` / `_handle_long_word`.

Character classes: `\w` is modelled as ASCII alphanumerics plus underscore
(the repository's report text is ASCII).  The tokenizer's whitespace class is
exactly the six characters of `string.whitespace` as in `textwrap`, while the
`str.strip` test used by `drop_whitespace` uses Python's full Unicode
whitespace set.

The two loops (`_split`'s scan and `_wrap_chunks`'s outer loop) are written
with an explicit fuel argument so they stay kernel-computable; every
iteration consumes at least one character (respectively reduces the
chunk-list measure), and the fuel-irrelevance lemmas below prove that any
fuel past that bound computes the same result, so the entry points with
fuel `length + 1` compute the loops' true results.
-/

/-- The six characters of `textwrap`'s whitespace class
(`string.whitespace`). -/
def isPyWS6 (c : Char) : Bool :=
  c == '\t' || c == '\n' || c == '\x0b' || c == '\x0c' || c == '\r' || c == ' '

/-- Python `str.strip()` whitespace: the characters Python's `str.isspace`
accepts (ASCII controls, NEL, and the Unicode space separators). -/
def isStripWS (c : Char) : Bool :=
  isPyWS6 c || c == '\x1c' || c == '\x1d' || c == '\x1e' || c == '\x1f' ||
  c == '\x85' || c == ' ' || c == ' ' ||
  (' ' ≤ c && c ≤ ' ') ||
  c == ' ' || c == ' ' || c == ' ' || c == ' ' || c == '　'

/-- Python regex `\w` (ASCII fragment): alphanumeric or underscore. -/
def isWordChar (c : Char) : Bool :=
  c.isAlpha || c.isDigit || c == '_'

/-- `textwrap`'s `word_punct` class: `[\w!"'&.,?]`. -/
def isWordPunct (c : Char) : Bool :=
  isWordChar c || c == '!' || c == '"' || c == '\'' || c == '&' ||
  c == '.' || c == ',' || c == '?'

/-- `textwrap`'s `letter` class `[^\d\W]`: a word character that is not a
digit. -/
def isLetterW (c : Char) : Bool :=
  isWordChar c && !c.isDigit

/-- Python `str.expandtabs(8)`: replace each tab with spaces up to the next
multiple-of-8 column; newline and carriage return reset the column. -/
def expandTabs8 (col : Nat) : List Char → List Char
  | [] => []
  | c :: rest =>
    if c = '\t' then
      let incr := 8 - col % 8
      List.replicate incr ' ' ++ expandTabs8 (col + incr) rest
    else if c = '\n' ∨ c = '\r' then c :: expandTabs8 0 rest
    else c :: expandTabs8 (col + 1) rest

/-- `TextWrapper._munge_whitespace`: expand tabs, then map each whitespace
character of `string.whitespace` to a plain space. -/
def mungeWhitespace (t : List Char) : List Char :=
  (expandTabs8 0 t).map (fun c => if isPyWS6 c then ' ' else c)

/-- Character of `rest` at relative index `i - back`; negative indices read
the already-consumed context `prev` (stored reversed). -/
def relChar (prev rest : List Char) (i back : Nat) : Option Char :=
  if back ≤ i then rest[i - back]? else prev[back - i - 1]?

/-- Test an optional character, `false` when absent. -/
def optIs (p : Char → Bool) : Option Char → Bool
  | some c => p c
  | none => false

/-- The `wordsep_re` alternative for an em-dash run between words:
`(?<=[word_punct]) -{2,} (?=\w)`, matched at the start of `rest`. -/
def emDashCond (prev rest : List Char) : Bool :=
  optIs isWordPunct prev[0]? &&
  (let r := (rest.takeWhile (fun c => c == '-')).length
   decide (2 ≤ r) && optIs isWordChar rest[r]?)

/-- `wordsep_re`, hyphenated-word case: after `k` non-whitespace characters
the scanner may consume a hyphen at index `k`, provided the lookbehind sees
`letter letter -` or `letter - letter -` and the lookahead sees
`letter -? letter`. -/
def condC1 (prev rest : List Char) (k : Nat) : Bool :=
  (rest[k]? == some '-') &&
  ((optIs isLetterW (relChar prev rest k 2) && optIs isLetterW (relChar prev rest k 1)) ||
   (optIs isLetterW (relChar prev rest k 3) && (relChar prev rest k 2 == some '-') &&
    optIs isLetterW (relChar prev rest k 1))) &&
  (optIs isLetterW rest[k + 1]? &&
   (optIs isLetterW rest[k + 2]? ||
    ((rest[k + 2]? == some '-') && optIs isLetterW rest[k + 3]?)))

/-- `wordsep_re`, end-of-word case: lookahead `(?=\s|\Z)` after `k`
characters. -/
def condC2 (rest : List Char) (k : Nat) : Bool :=
  (rest[k]?).all isPyWS6

/-- `wordsep_re`, em-dash lookahead case: `(?<=[word_punct]) (?=-{2,}\w)`
after `k` characters. -/
def condC3 (rest : List Char) (k : Nat) : Bool :=
  optIs isWordPunct rest[k - 1]? &&
  (let r := ((rest.drop k).takeWhile (fun c => c == '-')).length
   decide (2 ≤ r) && optIs isWordChar rest[k + r]?)

/-- Length of the word token the lazy `[^\s]+?` match produces: the smallest
`k ≥ 1` whose tail alternative succeeds, the alternatives being tried in the
pattern's order (`condC1` consumes the hyphen too, hence `k + 1`). -/
def wordLenGo (prev rest : List Char) : Nat → Nat → Nat
  | k, 0 => k
  | k, fuel + 1 =>
    if condC1 prev rest k then k + 1
    else if condC2 rest k then k
    else if condC3 rest k then k
    else wordLenGo prev rest (k + 1) fuel

/-- Length of the word token starting the non-whitespace run at `rest`. -/
def wordLen (prev rest : List Char) : Nat :=
  wordLenGo prev rest 1 (rest.takeWhile (fun c => !isPyWS6 c)).length

/-- `TextWrapper._split`: `wordsep_re.split` keeps every captured token, and
the pattern matches at every position, so the result is a partition of the
text into whitespace runs, em-dash runs, and word fragments. -/
def pySplitGo : Nat → List Char → List Char → List (List Char)
  | _, _, [] => []
  | 0, _, _ :: _ => []
  | fuel + 1, prev, c :: cs =>
    if isPyWS6 c then
      let tok := (c :: cs).takeWhile isPyWS6
      tok :: pySplitGo fuel (tok.reverse ++ prev) ((c :: cs).drop tok.length)
    else if emDashCond prev (c :: cs) then
      let tok := (c :: cs).takeWhile (fun x => x == '-')
      tok :: pySplitGo fuel (tok.reverse ++ prev) ((c :: cs).drop tok.length)
    else
      let n := wordLen prev (c :: cs)
      let tok := (c :: cs).take n
      tok :: pySplitGo fuel (tok.reverse ++ prev) ((c :: cs).drop n)

/-- `TextWrapper._split` entry point (with the final
`[c for c in chunks if c]` filter). -/
def pySplit (t : List Char) : List (List Char) :=
  (pySplitGo (t.length + 1) [] t).filter (fun c => !c.isEmpty)

/-- Total length of a list of chunks. -/
def sumLen (cs : List (List Char)) : Nat := (cs.map List.length).sum

/-- The greedy inner loop of `_wrap_chunks`: move chunks onto the current
line while the accumulated length stays within the width. -/
def greedyTake (w : Nat) : Nat → List (List Char) → List (List Char) × List (List Char)
  | _, [] => ([], [])
  | cur, c :: cs =>
    if cur + c.length ≤ w then
      let p := greedyTake w (cur + c.length) cs
      (c :: p.1, p.2)
    else ([], c :: cs)

/-- Python `str.rfind('-', 0, bound)`: the largest index `< bound` holding a
hyphen, if any. -/
def rfindHyphenLT (chunk : List Char) (bound : Nat) : Option Nat :=
  (List.range bound).foldl (fun acc i => if chunk[i]? == some '-' then some i else acc) none

/-- `TextWrapper._handle_long_word` with `break_long_words=True` and
`break_on_hyphens=True`: returns the piece moved onto the current line and
the remainder of the chunk. -/
def handleLongWord (w curLen : Nat) (chunk : List Char) : List Char × List Char :=
  let spaceLeft := if w < 1 then 1 else w - curLen
  let e :=
    if spaceLeft < chunk.length then
      match rfindHyphenLT chunk spaceLeft with
      | some h =>
        if 0 < h && (chunk.take h).any (fun c => !(c == '-')) then h + 1 else spaceLeft
      | none => spaceLeft
    else spaceLeft
  (chunk.take e, chunk.drop e)

/-- A chunk that Python's `str.strip()` reduces to the empty string. -/
def isWsChunk (chunk : List Char) : Bool := chunk.all isStripWS

/-- `drop_whitespace`, trailing side: delete the last chunk of the current
line if it strips to nothing (Python deletes at most one, since whitespace
runs are single chunks). -/
def dropTrailingWs (line : List (List Char)) : List (List Char) :=
  match line.getLast? with
  | some last => if isWsChunk last then line.dropLast else line
  | none => line

/-- Close the current line: drop a trailing whitespace chunk, and emit the
concatenation if anything is left (`if cur_line: lines.append(''.join(...))`). -/
def lineOf (line : List (List Char)) : List (List Char) :=
  let l2 := dropTrailingWs line
  if l2.isEmpty then [] else [l2.flatten]

/-- Chunk-list measure: one outer `_wrap_chunks` iteration strictly
decreases it. -/
def chunksMeasure (cs : List (List Char)) : Nat := cs.length + sumLen cs

/-- One iteration of the outer loop of `TextWrapper._wrap_chunks` (empty
indents, no `max_lines`): drop a leading whitespace chunk (except while no
line has been emitted yet), fill greedily, break a long word if the next
chunk exceeds the width, drop trailing whitespace, emit the line.  Returns
the lines emitted by this iteration, the remaining chunks, and the updated
"some line exists" flag. -/
def wrapIter (w : Nat) (hasLines : Bool) (cs : List (List Char)) :
    List (List Char) × List (List Char) × Bool :=
  match cs with
  | [] => ([], [], hasLines)
  | c0 :: rest =>
    let cs1 := if hasLines && isWsChunk c0 then rest else c0 :: rest
    let taken := (greedyTake w 0 cs1).1
    match (greedyTake w 0 cs1).2 with
    | [] => (lineOf taken, [], hasLines || !(lineOf taken).isEmpty)
    | a0 :: arest =>
      if w < a0.length then
        let piece := (handleLongWord w (sumLen taken) a0).1
        let rem := (handleLongWord w (sumLen taken) a0).2
        let ln := lineOf (taken ++ [piece])
        (ln, rem :: arest, hasLines || !ln.isEmpty)
      else
        let ln := lineOf taken
        (ln, a0 :: arest, hasLines || !ln.isEmpty)

/-- The outer loop of `TextWrapper._wrap_chunks`: iterate `wrapIter` until
the chunk list is exhausted.  Each iteration strictly decreases
`chunksMeasure`, so fuel `chunksMeasure cs + 1` suffices (see the
fuel-irrelevance lemma). -/
def wrapChunksGo (w : Nat) : Nat → Bool → List (List Char) → List (List Char)
  | _, _, [] => []
  | 0, _, _ :: _ => []
  | fuel + 1, hasLines, c0 :: rest =>
    let it := wrapIter w hasLines (c0 :: rest)
    it.1 ++ wrapChunksGo w fuel it.2.2 it.2.1

/-- `TextWrapper._wrap_chunks` entry point. -/
def wrapChunks (w : Nat) (cs : List (List Char)) : List (List Char) :=
  wrapChunksGo w (chunksMeasure cs + 1) false cs

/-- `textwrap.wrap(text, width)` at default settings, as called by both
source files.  (Python raises `ValueError` for `width ≤ 0`; the sources only
call it with positive widths.) -/
def textwrap_wrap (text : List Char) (width : Nat) : List (List Char) :=
  wrapChunks width (pySplit (mungeWhitespace text))

/-!
## Shared serialization primitives

`natStr` renders a natural number in decimal (Python `str(n)` /
`f-string` interpolation of an `int`); `fmt2f` renders a rational with
exactly two decimals, which is Python's `f"{x:.2f}"` (round-half-even; exact
on the dyadic values the scripts produce); `encodeL1` is
`str.encode('latin-1', errors='replace')` (and agrees with
`str.encode('ascii')` on the ASCII-only strings it is applied to); `joinNL`
is `"\n".join`. -/

def natStr (n : Nat) : List Char := (Nat.repr n).data

/-- Pad a digit string on the left with zeros to the given width
(`f"{off:010d}"`, and the two-decimal fraction part of `f"{x:.2f}"`). -/
def natPad (len : Nat) (s : List Char) : List Char :=
  List.replicate (len - s.length) '0' ++ s

/-- Floor of a rational, computed directly on the reduced fraction. -/
def ratFloor (q : ℚ) : Int := Int.fdiv q.num (Int.ofNat q.den)

/-- Round `q` to the nearest integer, ties to even (the rounding of
Python's `format`). -/
def roundHalfEven (q : ℚ) : Int :=
  let f : Int := ratFloor q
  if q - f < 1 / 2 then f
  else if (1 : ℚ) / 2 < q - f then f + 1
  else if f % 2 = 0 then f else f + 1

/-- Python `f"{x:.2f}"` on an exact rational. -/
def fmt2f (q : ℚ) : List Char :=
  let n := roundHalfEven (q * 100)
  let sign : List Char := if n < 0 ∨ (n = 0 ∧ q < 0) then [ '-' ] else []
  let a := n.natAbs
  sign ++ natStr (a / 100) ++ [ '.' ] ++ natPad 2 (natStr (a % 100))

/-- One byte of `str.encode('latin-1', errors='replace')`: characters above
U+00FF become `?`. -/
def encodeByte (c : Char) : Nat :=
  if c.toNat ≤ 255 then c.toNat else 63

def encodeL1 (s : List Char) : List Nat := s.map encodeByte

/-- Python `"\n".join`. -/
def joinNL : List (List Char) → List Char
  | [] => []
  | [x] => x
  | x :: y :: rest => x ++ '\n' :: joinNL (y :: rest)

/-- Python `' '.join`. -/
def joinSpace : List (List Char) → List Char
  | [] => []
  | [x] => x
  | x :: y :: rest => x ++ ' ' :: joinSpace (y :: rest)

deriving instance DecidableEq for Except

/-- `true` on `ok`, `false` on `error` (observing build success without
forcing the payload). -/
def exceptOk {e a : Type} : Except e a → Bool
  | .ok _ => true
  | .error _ => false

/-- A Draw Command: the argument tuple of `PDFBuilder.text(x, y, text,
font, size)`.  `text` is the raw (unescaped) semantic string handed in by
the `Layout` methods. -/
structure DrawCmd where
  x : ℚ
  y : ℚ
  text : List Char
  font : List Char
  size : ℚ
deriving DecidableEq

/-- The instruction string `PDFBuilder.text` builds (both files):
`f"BT /{font} {size:.2f} Tf {x:.2f} {y:.2f} Td ({pdf_escape(text)}) Tj ET"`.
The source stores each command in this already-serialized form; the model
keeps the arguments in `DrawCmd` and applies the identical serialization
when the content stream is assembled, producing the same bytes. -/
def serializeCmd (c : DrawCmd) : List Char :=
  "BT /".data ++ c.font ++ " ".data ++ fmt2f c.size ++ " Tf ".data
    ++ fmt2f c.x ++ " ".data ++ fmt2f c.y ++ " Td (".data
    ++ pdf_escape c.text ++ ") Tj ET".data

/-- The leading token stream of object `k`: the bytes of `f"{k} 0 obj"`.
Offset integrity says seeking to a recorded offset lands on this token. -/
def idTok (k : Nat) : List Nat := encodeL1 (natStr k ++ " 0 obj".data)

/-!
## `generate_app_summary_pdf.py` (namespace `Summary`)

The strict, single-page script: `Layout` raises
`RuntimeError('Content overflow: one-page constraint exceeded.')` from
`_ensure_room` when a wrapped line is about to be drawn with the cursor
already below `BOTTOM`, `build_summary_pdf` re-checks the cursor after all
content and only then calls `PDFBuilder.build`, which writes the file.
Failure is modelled with `Except`; the byte output is the `ok` payload, so
an `error` result means no file is written. -/

namespace Summary

def PAGE_WIDTH : Nat := 612

def PAGE_HEIGHT : Nat := 792

def LEFT : ℚ := 50

def TOP : ℚ := 760

def BOTTOM : ℚ := 42

/-- The content-stream prolog: white background fill, then black fill. -/
def prolog : List (List Char) :=
  [ "q 1 1 1 rg 0 0 ".data ++ natStr PAGE_WIDTH ++ " ".data ++ natStr PAGE_HEIGHT
      ++ " re f Q".data,
    "0 0 0 rg".data ]

/-- The single content stream: prolog then every command, newline-joined,
latin-1 encoded. -/
def stream (commands : List DrawCmd) : List Nat :=
  encodeL1 (joinNL (prolog ++ commands.map serializeCmd))

def obj1 : List Nat := encodeL1 "1 0 obj << /Type /Catalog /Pages 2 0 R >> endobj\n".data

def obj2 : List Nat := encodeL1 "2 0 obj << /Type /Pages /Count 1 /Kids [3 0 R] >> endobj\n".data

def obj3 : List Nat :=
  encodeL1 ("3 0 obj << /Type /Page /Parent 2 0 R /MediaBox [0 0 ".data
    ++ natStr PAGE_WIDTH ++ " ".data ++ natStr PAGE_HEIGHT
    ++ "] /Resources << /Font << /F1 4 0 R /F2 5 0 R /F3 6 0 R >> >> /Contents 7 0 R >> endobj\n".data)

def obj4 : List Nat := encodeL1 "4 0 obj << /Type /Font /Subtype /Type1 /BaseFont /Helvetica >> endobj\n".data

def obj5 : List Nat := encodeL1 "5 0 obj << /Type /Font /Subtype /Type1 /BaseFont /Helvetica-Bold >> endobj\n".data

def obj6 : List Nat := encodeL1 "6 0 obj << /Type /Font /Subtype /Type1 /BaseFont /Helvetica-Oblique >> endobj\n".data

def obj7 (commands : List DrawCmd) : List Nat :=
  encodeL1 ("7 0 obj << /Length ".data ++ natStr (stream commands).length
    ++ " >> stream\n".data)
  ++ stream commands ++ encodeL1 "\nendstream endobj\n".data

def objects (commands : List DrawCmd) : List (List Nat) :=
  [obj1, obj2, obj3, obj4, obj5, obj6, obj7 commands]

/-- `b"%PDF-1.4\n%\xe2\xe3\xcf\xd3\n"`. -/
def header : List Nat := encodeL1 "%PDF-1.4\n".data ++ [37, 226, 227, 207, 211, 10]

/-- Byte positions at which successive objects begin, starting at `pos`. -/
def offsetsFrom (pos : Nat) : List (List Nat) → List Nat
  | [] => []
  | o :: os => pos :: offsetsFrom (pos + o.length) os

/-- `xref_offsets`: the leading 0 is the id-0 placeholder, then one offset
per object, recorded as `len(pdf)` just before the object is appended. -/
def xref_offsets (commands : List DrawCmd) : List Nat :=
  0 :: offsetsFrom header.length (objects commands)

def bodyBytes (commands : List DrawCmd) : List Nat := (objects commands).flatten

def xrefStart (commands : List DrawCmd) : Nat := header.length + (bodyBytes commands).length

def xrefEntry (off : Nat) : List Nat :=
  encodeL1 (natPad 10 (natStr off) ++ " 00000 n \n".data)

def xrefBlock (commands : List DrawCmd) : List Nat :=
  encodeL1 ("xref\n0 ".data ++ natStr (xref_offsets commands).length ++ "\n".data)
  ++ encodeL1 "0000000000 65535 f \n".data
  ++ ((xref_offsets commands).drop 1).flatMap xrefEntry

def trailerBytes (commands : List DrawCmd) : List Nat :=
  encodeL1 ("trailer << /Size ".data ++ natStr (xref_offsets commands).length
    ++ " /Root 1 0 R >>\nstartxref\n".data ++ natStr (xrefStart commands)
    ++ "\n%%EOF\n".data)

/-- `PDFBuilder.build`: header, objects in order, cross-reference table,
trailer.  The returned bytes are what `output_path.write_bytes` receives. -/
def build (commands : List DrawCmd) : List Nat :=
  header ++ bodyBytes commands ++ xrefBlock commands ++ trailerBytes commands

/-- `Layout` state: the vertical cursor and the builder's command list. -/
structure LayoutState where
  y : ℚ
  commands : List DrawCmd
deriving DecidableEq

def initState : LayoutState := ⟨TOP, []⟩

/-- The `RuntimeError` message of `_ensure_room` and of the final check in
`build_summary_pdf`. -/
def ovMsg : List Char := "Content overflow: one-page constraint exceeded.".data

def title (st : LayoutState) (t : List Char) : LayoutState :=
  ⟨st.y - 22, st.commands ++ [⟨LEFT, st.y, t, "F2".data, 18⟩]⟩

def subtitle (st : LayoutState) (t : List Char) : LayoutState :=
  ⟨st.y - 16, st.commands ++ [⟨LEFT, st.y, t, "F3".data, 19 / 2⟩]⟩

/-- `Layout.section` (named `sectionH` here: `section` is a Lean keyword). -/
def sectionH (st : LayoutState) (t : List Char) : LayoutState :=
  ⟨st.y - 14, st.commands ++ [⟨LEFT, st.y, t, "F2".data, 23 / 2⟩]⟩

/-- One wrapped paragraph line: `_ensure_room(BOTTOM)` then draw then
advance. -/
def paraLine (st : LayoutState) (line : List Char) : Except (List Char) LayoutState :=
  if st.y < BOTTOM then .error ovMsg
  else .ok ⟨st.y - 12, st.commands ++ [⟨LEFT, st.y, line, "F1".data, 19 / 2⟩]⟩

def paragraph (st : LayoutState) (t : List Char) (w : Nat) :
    Except (List Char) LayoutState :=
  (textwrap_wrap t w).foldlM paraLine st

/-- A bullet continuation line (indent `LEFT + 14`). -/
def bulletCont (st : LayoutState) (line : List Char) : Except (List Char) LayoutState :=
  if st.y < BOTTOM then .error ovMsg
  else .ok ⟨st.y - 12, st.commands ++ [⟨LEFT + 14, st.y, line, "F1".data, 19 / 2⟩]⟩

def bullet (st : LayoutState) (t : List Char) (w : Nat) :
    Except (List Char) LayoutState :=
  match textwrap_wrap t w with
  | [] => .ok st
  | l0 :: rest =>
    if st.y < BOTTOM then .error ovMsg
    else rest.foldlM bulletCont
      ⟨st.y - 12, st.commands ++ [⟨LEFT + 2, st.y, "- ".data ++ l0, "F1".data, 19 / 2⟩]⟩

def gap (st : LayoutState) (p : ℚ) : LayoutState := ⟨st.y - p, st.commands⟩

/-- The content elements `build_summary_pdf` feeds the layout (widths are
the Python defaults 102 and 96 unless overridden). -/
inductive Elem where
  | title (t : List Char)
  | subtitle (t : List Char)
  | sectionH (t : List Char)
  | paragraph (t : List Char) (w : Nat)
  | bullet (t : List Char) (w : Nat)
  | gap (p : ℚ)
deriving DecidableEq

def step (st : LayoutState) : Elem → Except (List Char) LayoutState
  | .title t => .ok (title st t)
  | .subtitle t => .ok (subtitle st t)
  | .sectionH t => .ok (sectionH st t)
  | .paragraph t w => paragraph st t w
  | .bullet t w => bullet st t w
  | .gap p => .ok (gap st p)

def process (es : List Elem) (st : LayoutState) : Except (List Char) LayoutState :=
  es.foldlM step st

/-- `build_summary_pdf`: run the layout over the content, re-check the
cursor, and only on success hand the assembled bytes to the file write. -/
def build_summary_pdf (es : List Elem) : Except (List Char) (List Nat) :=
  (process es initState).bind
    (fun st => if st.y < BOTTOM then .error ovMsg else .ok (build st.commands))

/-- Vertical space an element consumes when processed without failure. -/
def advance : Elem → ℚ
  | .title _ => 22
  | .subtitle _ => 16
  | .sectionH _ => 14
  | .paragraph t w => 12 * (textwrap_wrap t w).length
  | .bullet t w => 12 * (textwrap_wrap t w).length
  | .gap p => p

def requiredSpace (es : List Elem) : ℚ := (es.map advance).sum

/-- `true` unless the element is a gap by a negative amount. -/
def gapNN : Elem → Bool
  | .gap p => decide (0 ≤ p)
  | _ => true

/-- An element sequence whose gaps are all nonnegative (every gap the
script issues is). -/
abbrev gapsNonneg (es : List Elem) : Prop := ∀ e ∈ es, gapNN e = true

end Summary

/-!
## `generate_technical_walkthrough_pdf.py` (namespace `Walkthrough`)

The auto-paginating script: `PDFBuilder` keeps a list of pages (each a list
of commands, appended to the last page), `Layout._next_page_if_needed`
starts a new page and resets the cursor when the next draw would cross
`BOTTOM`, and `PDFBuilder.build` keeps the objects in a dict keyed by object
number, serializes them in ascending id order, and appends a
`Page i of N` footer to every page's content stream — `N` is
`len(self.pages)`, known only after the whole element sequence has been
consumed. -/

namespace Walkthrough

def PAGE_WIDTH : Nat := 612

def PAGE_HEIGHT : Nat := 792

def LEFT : ℚ := 48

def TOP : ℚ := 760

def BOTTOM : ℚ := 46

/-- Append a command to the last page (`self.pages[self.page_index].append`). -/
def appendToLast (pages : List (List DrawCmd)) (c : DrawCmd) : List (List DrawCmd) :=
  pages.dropLast ++ [pages.getLastD [] ++ [c]]

/-- Builder plus layout state: the pages so far and the vertical cursor. -/
structure WState where
  pages : List (List DrawCmd)
  y : ℚ
deriving DecidableEq

/-- `PDFBuilder()` and `Layout(builder)`: one empty page, cursor at `TOP`. -/
def initState : WState := ⟨[[]], TOP⟩

/-- `Layout._next_page_if_needed`. -/
def nextPageIfNeeded (st : WState) (required : ℚ) : WState :=
  if st.y - required < BOTTOM then ⟨st.pages ++ [[]], TOP⟩ else st

/-- `PDFBuilder.text` invoked from a layout method: draw at the current
cursor height. -/
def wtext (st : WState) (x : ℚ) (t font : List Char) (size : ℚ) : WState :=
  ⟨appendToLast st.pages ⟨x, st.y, t, font, size⟩, st.y⟩

def title (st : WState) (t : List Char) : WState :=
  let s := nextPageIfNeeded st 26
  let s2 := wtext s LEFT t "F2".data 19
  ⟨s2.pages, s2.y - 24⟩

def subtitle (st : WState) (t : List Char) : WState :=
  let s := nextPageIfNeeded st 15
  let s2 := wtext s LEFT t "F3".data 10
  ⟨s2.pages, s2.y - 15⟩

/-- `Layout.section` (named `sectionH` here: `section` is a Lean keyword). -/
def sectionH (st : WState) (t : List Char) : WState :=
  let s := nextPageIfNeeded st 18
  let s2 := wtext s LEFT t "F2".data 13
  ⟨s2.pages, s2.y - 16⟩

def subsection (st : WState) (t : List Char) : WState :=
  let s := nextPageIfNeeded st 15
  let s2 := wtext s LEFT t "F2".data 11
  ⟨s2.pages, s2.y - 14⟩

/-- One wrapped line drawn at indent `x`: check room for 12 points, draw,
advance 12. -/
def lineStep (x : ℚ) (font : List Char) (size : ℚ) (st : WState) (line : List Char) : WState :=
  let s := nextPageIfNeeded st 12
  let s2 := wtext s x line font size
  ⟨s2.pages, s2.y - 12⟩

def paragraph (st : WState) (t : List Char) (w : Nat) : WState :=
  (textwrap_wrap t w).foldl (lineStep LEFT "F1".data 10) st

def bullet (st : WState) (t : List Char) (w : Nat) : WState :=
  match textwrap_wrap t w with
  | [] => st
  | l0 :: rest =>
    rest.foldl (lineStep (LEFT + 16) "F1".data 10)
      (lineStep (LEFT + 2) "F1".data 10 st ("- ".data ++ l0))

def code_line (st : WState) (t : List Char) : WState :=
  lineStep (LEFT + 8) "F4".data (47 / 5) st t

def gap (st : WState) (p : ℚ) : WState := ⟨st.pages, st.y - p⟩

/-- The content elements `write_walkthrough` feeds the layout (widths are
the Python defaults 104 and 98 unless overridden). -/
inductive Elem where
  | title (t : List Char)
  | subtitle (t : List Char)
  | sectionH (t : List Char)
  | subsection (t : List Char)
  | paragraph (t : List Char) (w : Nat)
  | bullet (t : List Char) (w : Nat)
  | codeLine (t : List Char)
  | gap (p : ℚ)
deriving DecidableEq

def step (st : WState) : Elem → WState
  | .title t => title st t
  | .subtitle t => subtitle st t
  | .sectionH t => sectionH st t
  | .subsection t => subsection st t
  | .paragraph t w => paragraph st t w
  | .bullet t w => bullet st t w
  | .codeLine t => code_line st t
  | .gap p => gap st p

def process (es : List Elem) (st : WState) : WState := es.foldl step st

/-- Vertical space an element consumes. -/
def advance : Elem → ℚ
  | .title _ => 24
  | .subtitle _ => 15
  | .sectionH _ => 16
  | .subsection _ => 14
  | .paragraph t w => 12 * (textwrap_wrap t w).length
  | .bullet t w => 12 * (textwrap_wrap t w).length
  | .codeLine _ => 12
  | .gap p => p

def requiredSpace (es : List Elem) : ℚ := (es.map advance).sum

/-- `true` unless the element is a gap by a negative amount. -/
def gapNN : Elem → Bool
  | .gap p => decide (0 ≤ p)
  | _ => true

abbrev gapsNonneg (es : List Elem) : Prop := ∀ e ∈ es, gapNN e = true

/-- The content-stream prolog (white background, black fill). -/
def prolog : List (List Char) :=
  [ "q 1 1 1 rg 0 0 ".data ++ natStr PAGE_WIDTH ++ " ".data ++ natStr PAGE_HEIGHT
      ++ " re f Q".data,
    "0 0 0 rg".data ]

/-- The footer instruction of page `idx` of `total`:
`f"BT /F1 9 Tf {LEFT:.2f} 26.00 Td (Page {idx} of {total}) Tj ET"`. -/
def footerLine (idx total : Nat) : List Char :=
  "BT /F1 9 Tf ".data ++ fmt2f LEFT ++ " 26.00 Td (Page ".data ++ natStr idx
    ++ " of ".data ++ natStr total ++ ") Tj ET".data

/-- The content stream of page `idx` (1-based) of `total`: prolog, the
page's commands, then the footer, newline-joined and latin-1 encoded. -/
def pageStream (idx total : Nat) (cmds : List DrawCmd) : List Nat :=
  encodeL1 (joinNL (prolog ++ cmds.map serializeCmd ++ [footerLine idx total]))

def objCatalog : List Nat := encodeL1 "1 0 obj << /Type /Catalog /Pages 2 0 R >> endobj\n".data

def objFont3 : List Nat := encodeL1 "3 0 obj << /Type /Font /Subtype /Type1 /BaseFont /Helvetica >> endobj\n".data

def objFont4 : List Nat := encodeL1 "4 0 obj << /Type /Font /Subtype /Type1 /BaseFont /Helvetica-Bold >> endobj\n".data

def objFont5 : List Nat := encodeL1 "5 0 obj << /Type /Font /Subtype /Type1 /BaseFont /Helvetica-Oblique >> endobj\n".data

def objFont6 : List Nat := encodeL1 "6 0 obj << /Type /Font /Subtype /Type1 /BaseFont /Courier >> endobj\n".data

/-- The page object of page `idx`: ids are allocated in `build`'s loop as
`page_obj = 7 + 2*(idx-1) = 5 + 2*idx`, `content_obj = page_obj + 1`. -/
def pageObjBytes (pageObj contentObj : Nat) : List Nat :=
  encodeL1 (natStr pageObj
    ++ " 0 obj << /Type /Page /Parent 2 0 R /MediaBox [0 0 ".data
    ++ natStr PAGE_WIDTH ++ " ".data ++ natStr PAGE_HEIGHT
    ++ "] /Resources << /Font << /F1 3 0 R /F2 4 0 R /F3 5 0 R /F4 6 0 R >> >> /Contents ".data
    ++ natStr contentObj ++ " 0 R >> endobj\n".data)

def contentObjBytes (contentObj : Nat) (stream : List Nat) : List Nat :=
  encodeL1 (natStr contentObj ++ " 0 obj << /Length ".data ++ natStr stream.length
    ++ " >> stream\n".data)
  ++ stream ++ encodeL1 "\nendstream endobj\n".data

/-- The per-page `(page_obj, bytes), (content_obj, bytes)` entries, in the
order the loop inserts them into the dict. -/
def pagePairs (total : Nat) : Nat → List (List DrawCmd) → List (Nat × List Nat)
  | _, [] => []
  | idx, cmds :: rest =>
    (5 + 2 * idx, pageObjBytes (5 + 2 * idx) (6 + 2 * idx))
      :: (6 + 2 * idx, contentObjBytes (6 + 2 * idx) (pageStream idx total cmds))
      :: pagePairs total (idx + 1) rest

/-- `page_kids`: the `f"{page_obj} 0 R"` strings, one per page. -/
def pageKidsGo : Nat → List (List DrawCmd) → List (List Char)
  | _, [] => []
  | idx, _ :: rest => (natStr (5 + 2 * idx) ++ " 0 R".data) :: pageKidsGo (idx + 1) rest

/-- Object 2 (the page tree), inserted into the dict after the page loop. -/
def pageTreeBytes (pages : List (List DrawCmd)) : List Nat :=
  encodeL1 ("2 0 obj << /Type /Pages /Count ".data ++ natStr pages.length
    ++ " /Kids [".data ++ joinSpace (pageKidsGo 1 pages) ++ "] >> endobj\n".data)

/-- The object dict in insertion order: catalog, fonts, page/content pairs,
then the page tree. -/
def objList (pages : List (List DrawCmd)) : List (Nat × List Nat) :=
  (1, objCatalog) :: (3, objFont3) :: (4, objFont4) :: (5, objFont5) :: (6, objFont6)
    :: (pagePairs pages.length 1 pages ++ [(2, pageTreeBytes pages)])

/-- Dict lookup (`objects.get(obj_num)`); keys are unique, so the first
match is the entry. -/
def lookupObj (k : Nat) : List (Nat × List Nat) → Option (List Nat)
  | [] => none
  | (k', v) :: rest => if k' = k then some v else lookupObj k rest

/-- `max(objects.keys())`. -/
def maxKey (objs : List (Nat × List Nat)) : Nat := (objs.map Prod.fst).foldr max 0

def header : List Nat := encodeL1 "%PDF-1.4\n".data ++ [37, 226, 227, 207, 211, 10]

/-- The serialization loop `for obj_num in range(1, max_obj + 1)`: emit each
present object, recording its byte offset (`len(pdf)` at emission); a
missing id keeps offset 0.  Returns the emitted bytes and the offsets for
the traversed ids. -/
def emitObjs (lk : Nat → Option (List Nat)) (pos : Nat) : List Nat → List Nat × List Nat
  | [] => ([], [])
  | k :: ks =>
    match lk k with
    | none =>
      let p := emitObjs lk pos ks
      (p.1, 0 :: p.2)
    | some ob =>
      let p := emitObjs lk (pos + ob.length) ks
      (ob ++ p.1, pos :: p.2)

/-- The cross-reference entry for a recorded offset; offset 0 marks a
missing object and degrades to a free entry. -/
def xrefEntryW (off : Nat) : List Nat :=
  if off = 0 then encodeL1 "0000000000 65535 f \n".data
  else encodeL1 (natPad 10 (natStr off) ++ " 00000 n \n".data)

/-- Everything `PDFBuilder.build` does after the object dict is complete:
serialize ids `1..max_obj` in ascending order, then the xref table (entry 0
free, then one fixed-width entry per id), then the trailer with
`/Size max_obj+1` and the byte offset of `xref`. -/
def serializeObjects (objs : List (Nat × List Nat)) : List Nat :=
  let maxO := maxKey objs
  let body := emitObjs (fun k => lookupObj k objs) header.length (List.range' 1 maxO)
  header ++ body.1
    ++ encodeL1 ("xref\n0 ".data ++ natStr (maxO + 1) ++ "\n".data)
    ++ encodeL1 "0000000000 65535 f \n".data
    ++ body.2.flatMap xrefEntryW
    ++ encodeL1 ("trailer << /Size ".data ++ natStr (maxO + 1)
        ++ " /Root 1 0 R >>\nstartxref\n".data
        ++ natStr (header.length + body.1.length) ++ "\n%%EOF\n".data)

/-- `PDFBuilder.build` on the builder's page list. -/
def build (pages : List (List DrawCmd)) : List Nat :=
  serializeObjects (objList pages)

/-- The offsets recorded in the cross-reference table for ids `1..max_obj`. -/
def xrefOffsets (pages : List (List DrawCmd)) : List Nat :=
  (emitObjs (fun k => lookupObj k (objList pages)) header.length
    (List.range' 1 (maxKey (objList pages)))).2

/-- Body commands land strictly above the bottom margin and at most at the
top margin. -/
def cmdsInBody (pages : List (List DrawCmd)) : Bool :=
  pages.all (fun pg => pg.all (fun c => decide (BOTTOM < c.y) && decide (c.y ≤ TOP)))

/-- All stored commands sit strictly above the bottom margin and at most at
the top margin (proposition form of `cmdsInBody`). -/
def GoodPages (pages : List (List DrawCmd)) : Prop :=
  ∀ pg ∈ pages, ∀ d ∈ pg, BOTTOM < d.y ∧ d.y ≤ TOP

end Walkthrough

/-- Content requiring exactly 1.4 page-bodies of vertical space, realised
by drawn lines: 82 code lines, a 3.6-point gap, and one final code line
(83·12 + 3.6 = 999.6 = 1.4·714). -/
def c5content : List Walkthrough.Elem :=
  List.replicate 82 (Walkthrough.Elem.codeLine ("x".data))
    ++ [Walkthrough.Elem.gap (18 / 5), Walkthrough.Elem.codeLine ("x".data)]

theorem strReplace1_eq_flatMap (a : Char) (new : List Char) :
    ∀ s : List Char, strReplace1 s a new = s.flatMap (fun c => if c = a then new else [c]) := by
  intro s
  induction s with
  | nil => rfl
  | cons c rest ih =>
    by_cases hc : c = a <;> simp [strReplace1, hc, ih]

theorem pdf_escape_eq_flatMap (t : List Char) :
    pdf_escape t = t.flatMap escChar := by
  unfold pdf_escape
  rw [strReplace1_eq_flatMap, strReplace1_eq_flatMap, strReplace1_eq_flatMap]
  rw [List.flatMap_assoc, List.flatMap_assoc]
  apply List.flatMap_congr
  intro c _
  by_cases h1 : c = '\\'
  · subst h1; rfl
  · by_cases h2 : c = '('
    · subst h2; rfl
    · by_cases h3 : c = ')'
      · subst h3; rfl
      · simp [escChar, h1, h2, h3]

theorem escChar_ne_nil (c : Char) : escChar c ≠ [] := by
  unfold escChar
  by_cases h1 : c = '\\' <;> by_cases h2 : c = '(' <;> by_cases h3 : c = ')' <;>
    simp [h1, h2, h3]

theorem flatMap_escChar_nil (t : List Char) :
    t.flatMap escChar = [] → t = [] := by
  cases t with
  | nil => intro; rfl
  | cons c rest =>
    intro h
    simp only [List.flatMap_cons, List.append_eq_nil] at h
    exact absurd h.1 (escChar_ne_nil c)

theorem pdf_unescape_flatMap (t : List Char) :
    pdf_unescape (t.flatMap escChar) = t := by
  induction t with
  | nil => rfl
  | cons c rest ih =>
    simp only [List.flatMap_cons]
    by_cases h1 : c = '\\'
    · subst h1; simpa [escChar, pdf_unescape] using ih
    · by_cases h2 : c = '('
      · subst h2; simpa [escChar, pdf_unescape] using ih
      · by_cases h3 : c = ')'
        · subst h3; simpa [escChar, pdf_unescape] using ih
        · simp only [escChar, h1, h2, h3, if_false, List.singleton_append]
          cases hres : rest.flatMap escChar with
          | nil =>
            have := flatMap_escChar_nil rest hres
            subst this
            simp [pdf_unescape, h1]
          | cons b more =>
            rw [pdf_unescape]
            · rw [if_neg h1, ← hres, ih]

theorem hasUnescapedParen_flatMap (t : List Char) :
    hasUnescapedParen (t.flatMap escChar) = false := by
  induction t with
  | nil => rfl
  | cons c rest ih =>
    simp only [List.flatMap_cons]
    by_cases h1 : c = '\\'
    · subst h1; simpa [escChar, hasUnescapedParen] using ih
    · by_cases h2 : c = '('
      · subst h2; simpa [escChar, hasUnescapedParen] using ih
      · by_cases h3 : c = ')'
        · subst h3; simpa [escChar, hasUnescapedParen] using ih
        · simp only [escChar, h1, h2, h3, if_false, List.singleton_append]
          cases hres : rest.flatMap escChar with
          | nil =>
            simp [hasUnescapedParen, h1, h2, h3]
          | cons b more =>
            rw [hasUnescapedParen]
            rw [if_neg h1, ← hres, ih]
            simp [h2, h3]

/-- C2: `pdf_escape` doubles every backslash and prefixes every parenthesis
with a backslash, performing the backslash pass first so the inserted escape
backslashes are not re-escaped (equivalently, the escaper acts independently
on each input character); its output contains no unescaped parenthesis;
unescaping recovers the input exactly; and on the concrete input
`A (test) \value` it yields `A \(test\) \\value`. -/
theorem c2_escaper_correct : ∀ t : List Char,
    (pdf_escape t = t.flatMap escChar
      ∧ hasUnescapedParen (pdf_escape t) = false
      ∧ pdf_unescape (pdf_escape t) = t)
    ∧ pdf_escape ("A (test) \\value".data) = ("A \\(test\\) \\\\value".data) := by
  intro t
  refine ⟨⟨pdf_escape_eq_flatMap t, ?_, ?_⟩, by decide⟩
  · rw [pdf_escape_eq_flatMap]; exact hasUnescapedParen_flatMap t
  · rw [pdf_escape_eq_flatMap]; exact pdf_unescape_flatMap t

example : textwrap_wrap ("abcde".data) 3 = ["abc".data, "de".data] := by decide
example : textwrap_wrap ("foo bar baz".data) 7 = ["foo bar".data, "baz".data] := by decide
example : textwrap_wrap ("  ab".data) 5 = ["  ab".data] := by decide
example : textwrap_wrap ("a-b-c".data) 3 = ["a-".data, "b-c".data] := by decide
example : textwrap_wrap ("foo-bar baz".data) 20 = ["foo-bar baz".data] := by decide
example : textwrap_wrap ("a--b".data) 2 = ["a".data, "--".data, "b".data] := by decide
example : textwrap_wrap ("   ".data) 4 = [] := by decide
example : textwrap_wrap ([]) 4 = [] := by decide
example : textwrap_wrap ("hello   world".data) 80 = ["hello   world".data] := by decide

theorem sumLen_append (a b : List (List Char)) : sumLen (a ++ b) = sumLen a + sumLen b := by
  simp [sumLen]

theorem sumLen_dropLast_le (l : List (List Char)) : sumLen l.dropLast ≤ sumLen l := by
  induction l with
  | nil => simp
  | cons c rest ih =>
    cases rest with
    | nil => simp [sumLen]
    | cons d t =>
      simp only [List.dropLast_cons₂, sumLen, List.map_cons, List.sum_cons] at *
      omega

theorem dropTrailingWs_sumLen_le (line : List (List Char)) :
    sumLen (dropTrailingWs line) ≤ sumLen line := by
  unfold dropTrailingWs
  cases h : line.getLast? with
  | none => exact le_refl _
  | some last =>
    by_cases hws : isWsChunk last
    · simp only [hws, if_true]
      exact sumLen_dropLast_le line
    · simp [hws]

theorem lineOf_mem_length {line : List (List Char)} {l : List Char}
    (h : l ∈ lineOf line) : l.length ≤ sumLen line := by
  unfold lineOf at h
  by_cases he : (dropTrailingWs line).isEmpty
  · simp [he] at h
  · rw [if_neg he] at h
    rw [List.mem_singleton] at h
    subst h
    calc (dropTrailingWs line).flatten.length
        = sumLen (dropTrailingWs line) := by simp [sumLen, List.length_flatten]
      _ ≤ sumLen line := dropTrailingWs_sumLen_le line

theorem greedyTake_append (w : Nat) :
    ∀ cs cur, (greedyTake w cur cs).1 ++ (greedyTake w cur cs).2 = cs := by
  intro cs
  induction cs with
  | nil => intro cur; rfl
  | cons c rest ih =>
    intro cur
    unfold greedyTake
    by_cases hfit : cur + c.length ≤ w
    · simp only [hfit, if_true, List.cons_append]
      rw [ih]
    · simp [hfit]

theorem greedyTake_sum (w : Nat) :
    ∀ cs cur, cur ≤ w → cur + sumLen (greedyTake w cur cs).1 ≤ w := by
  intro cs
  induction cs with
  | nil => intro cur h; simpa [greedyTake, sumLen]
  | cons c rest ih =>
    intro cur h
    unfold greedyTake
    by_cases hfit : cur + c.length ≤ w
    · simp only [hfit, if_true]
      have := ih (cur + c.length) hfit
      simp only [sumLen, List.map_cons, List.sum_cons] at *
      omega
    · simpa [hfit, sumLen]

theorem greedyTake_after_head (w : Nat) :
    ∀ cs cur a t, (greedyTake w cur cs).2 = a :: t →
      w < cur + sumLen (greedyTake w cur cs).1 + a.length := by
  intro cs
  induction cs with
  | nil => intro cur a t h; simp [greedyTake] at h
  | cons c rest ih =>
    intro cur a t h
    rw [greedyTake] at h ⊢
    by_cases hfit : cur + c.length ≤ w
    · simp only [hfit, if_true] at h ⊢
      have := ih (cur + c.length) a t h
      simp only [sumLen, List.map_cons, List.sum_cons] at *
      omega
    · simp only [hfit, if_false] at h ⊢
      cases h
      simp only [sumLen, List.map_nil, List.sum_nil]
      omega

theorem rfindHyphenLT_aux {p : Nat → Bool} :
    ∀ (l : List Nat) (acc : Option Nat) (h : Nat),
      l.foldl (fun acc i => if p i = true then some i else acc) acc = some h →
      h ∈ l ∨ acc = some h := by
  intro l
  induction l with
  | nil => intro acc h hh; exact Or.inr hh
  | cons i rest ih =>
    intro acc h hh
    simp only [List.foldl_cons] at hh
    rcases ih _ h hh with hmem | hacc
    · exact Or.inl (List.mem_cons_of_mem _ hmem)
    · by_cases hp : p i
      · simp only [hp, if_true, Option.some.injEq] at hacc
        exact Or.inl (hacc ▸ List.mem_cons_self _ _)
      · simp only [hp, if_false] at hacc
        exact Or.inr hacc

theorem rfindHyphenLT_lt {chunk : List Char} {b h : Nat}
    (hh : rfindHyphenLT chunk b = some h) : h < b := by
  unfold rfindHyphenLT at hh
  rcases rfindHyphenLT_aux (List.range b) none h hh with hmem | habs
  · exact List.mem_range.mp hmem
  · cases habs

theorem handleLongWord_append (w curLen : Nat) (chunk : List Char) :
    (handleLongWord w curLen chunk).1 ++ (handleLongWord w curLen chunk).2 = chunk := by
  unfold handleLongWord
  exact List.take_append_drop _ _

theorem handleLongWord_fst_len {w curLen : Nat} (chunk : List Char)
    (hw : 1 ≤ w) (hcur : curLen ≤ w) :
    curLen + (handleLongWord w curLen chunk).1.length ≤ w := by
  have hnlt : ¬ (w < 1) := by omega
  unfold handleLongWord
  rw [if_neg hnlt]
  simp only [List.length_take]
  have hcases :
      ∀ e : Nat, e ≤ w - curLen → curLen + min e chunk.length ≤ w := by
    intro e he
    omega
  apply hcases
  by_cases hlong : w - curLen < chunk.length
  · rw [if_pos hlong]
    cases hfind : rfindHyphenLT chunk (w - curLen) with
    | none => exact le_refl _
    | some hh =>
      have hlt := rfindHyphenLT_lt hfind
      dsimp only
      by_cases hcond : (0 < hh && (chunk.take hh).any (fun c => !(c == '-'))) = true
      · rw [if_pos hcond]
        omega
      · rw [if_neg hcond]
  · rw [if_neg hlong]

theorem chunksMeasure_append (a b : List (List Char)) :
    chunksMeasure (a ++ b) = chunksMeasure a + chunksMeasure b := by
  simp [chunksMeasure, sumLen]
  omega

theorem handleLongWord_fst_pos (w : Nat) (chunk : List Char) (hne : chunk ≠ []) :
    1 ≤ (handleLongWord w 0 chunk).1.length := by
  have hlen : 1 ≤ chunk.length := by
    cases chunk with
    | nil => exact absurd rfl hne
    | cons a t => simp
  have hsl : 1 ≤ (if w < 1 then 1 else w - 0) := by
    by_cases hw : w < 1 <;> simp [hw] <;> omega
  unfold handleLongWord
  simp only [List.length_take]
  have he : ∀ e : Nat, 1 ≤ e → 1 ≤ min e chunk.length := fun e h1 => by omega
  apply he
  by_cases hlong : (if w < 1 then 1 else w - 0) < chunk.length
  · rw [if_pos hlong]
    cases hfind : rfindHyphenLT chunk (if w < 1 then 1 else w - 0) with
    | none => exact hsl
    | some hh =>
      dsimp only
      by_cases hcond : (0 < hh && (chunk.take hh).any (fun c => !(c == '-'))) = true
      · rw [if_pos hcond]; omega
      · rw [if_neg hcond]; exact hsl
  · rw [if_neg hlong]; exact hsl

theorem handleLongWord_len_split (w curLen : Nat) (chunk : List Char) :
    (handleLongWord w curLen chunk).1.length + (handleLongWord w curLen chunk).2.length
      = chunk.length := by
  have h := handleLongWord_append w curLen chunk
  have := congrArg List.length h
  simpa [List.length_append] using this

theorem wrapIter_lines_le {w : Nat} (hw : 1 ≤ w) (b : Bool) (cs : List (List Char)) :
    ∀ l ∈ (wrapIter w b cs).1, l.length ≤ w := by
  intro l hl
  match cs with
  | [] => simp [wrapIter] at hl
  | c0 :: rest =>
    unfold wrapIter at hl
    dsimp only at hl
    set cs1 := if b && isWsChunk c0 then rest else c0 :: rest with hcs1
    have hsum : 0 + sumLen (greedyTake w 0 cs1).1 ≤ w := greedyTake_sum w cs1 0 (by omega)
    rcases hafter : (greedyTake w 0 cs1).2 with _ | ⟨a0, arest⟩
    · rw [hafter] at hl
      dsimp only at hl
      have := lineOf_mem_length hl
      omega
    · rw [hafter] at hl
      dsimp only at hl
      by_cases hlong : w < a0.length
      · rw [if_pos hlong] at hl
        dsimp only at hl
        have hmem := lineOf_mem_length hl
        have hsingle : sumLen [(handleLongWord w (sumLen (greedyTake w 0 cs1).1) a0).1]
            = (handleLongWord w (sumLen (greedyTake w 0 cs1).1) a0).1.length := by
          simp [sumLen]
        rw [sumLen_append, hsingle] at hmem
        have hfst := handleLongWord_fst_len a0 hw (by omega :
          sumLen (greedyTake w 0 cs1).1 ≤ w)
        omega
      · rw [if_neg hlong] at hl
        dsimp only at hl
        have := lineOf_mem_length hl
        omega

theorem wrapIter_measure (w : Nat) (b : Bool) (c0 : List Char) (rest : List (List Char)) :
    chunksMeasure (wrapIter w b (c0 :: rest)).2.1 < chunksMeasure (c0 :: rest) := by
  unfold wrapIter
  dsimp only
  set cs1 := if b && isWsChunk c0 then rest else c0 :: rest with hcs1
  have hsplit := greedyTake_append w cs1 0
  have hmu : chunksMeasure (greedyTake w 0 cs1).1 + chunksMeasure (greedyTake w 0 cs1).2
      = chunksMeasure cs1 := by
    rw [← chunksMeasure_append, hsplit]
  have hcs1_le : chunksMeasure cs1 ≤ chunksMeasure (c0 :: rest) := by
    by_cases hdrop : (b && isWsChunk c0) = true
    · rw [hcs1, if_pos hdrop]
      simp [chunksMeasure, sumLen]
      omega
    · rw [hcs1, if_neg hdrop]
  have hpos : 1 ≤ chunksMeasure (c0 :: rest) := by
    simp [chunksMeasure]
    omega
  rcases hafter : (greedyTake w 0 cs1).2 with _ | ⟨a0, arest⟩
  · dsimp only
    have : chunksMeasure ([] : List (List Char)) = 0 := by simp [chunksMeasure, sumLen]
    omega
  · dsimp only
    rw [hafter] at hmu
    have hafter_mu : chunksMeasure (a0 :: arest)
        = 1 + a0.length + chunksMeasure arest := by
      simp [chunksMeasure, sumLen]
      omega
    by_cases hlong : w < a0.length
    · rw [if_pos hlong]
      dsimp only
      have hremsplit := handleLongWord_len_split w (sumLen (greedyTake w 0 cs1).1) a0
      have hnext_mu : chunksMeasure ((handleLongWord w (sumLen (greedyTake w 0 cs1).1) a0).2 :: arest)
          = 1 + (handleLongWord w (sumLen (greedyTake w 0 cs1).1) a0).2.length
            + chunksMeasure arest := by
        simp [chunksMeasure, sumLen]
        omega
      by_cases htk : (greedyTake w 0 cs1).1 = []
      · -- nothing was taken greedily: the long-word piece is nonempty
        have ha0ne : a0 ≠ [] := by
          intro h0
          rw [h0] at hlong
          simp at hlong
        have hp : 1 ≤ (handleLongWord w 0 a0).1.length := handleLongWord_fst_pos w a0 ha0ne
        rw [htk] at hnext_mu hmu hremsplit ⊢
        have hz : sumLen ([] : List (List Char)) = 0 := by simp [sumLen]
        rw [hz] at hnext_mu hremsplit ⊢
        have htkmu : chunksMeasure ([] : List (List Char)) = 0 := by simp [chunksMeasure, sumLen]
        rw [htkmu] at hmu
        omega
      · have htkpos : 1 ≤ chunksMeasure (greedyTake w 0 cs1).1 := by
          cases hgt : (greedyTake w 0 cs1).1 with
          | nil => exact absurd hgt htk
          | cons x xs =>
            simp [chunksMeasure]
            omega
        have hrem_le : (handleLongWord w (sumLen (greedyTake w 0 cs1).1) a0).2.length
            ≤ a0.length := by omega
        omega
    · rw [if_neg hlong]
      dsimp only
      have hh := greedyTake_after_head w cs1 0 a0 arest hafter
      have htkpos : 1 ≤ chunksMeasure (greedyTake w 0 cs1).1 := by
        have hsum : 1 ≤ sumLen (greedyTake w 0 cs1).1 := by omega
        cases hgt : (greedyTake w 0 cs1).1 with
        | nil => rw [hgt] at hsum; simp [sumLen] at hsum
        | cons x xs =>
          simp [chunksMeasure]
          omega
      omega

theorem wrapChunksGo_nil (w fuel : Nat) (b : Bool) : wrapChunksGo w fuel b [] = [] := by
  cases fuel with
  | zero => rfl
  | succ n => rfl

theorem wrapChunksGo_fuel (w : Nat) :
    ∀ n m : Nat, ∀ b cs, chunksMeasure cs < n → chunksMeasure cs < m →
      wrapChunksGo w n b cs = wrapChunksGo w m b cs := by
  intro n
  induction n using Nat.strong_induction_on with
  | _ n ih =>
    intro m b cs hn hm
    match n, m, cs with
    | n, m, [] => rw [wrapChunksGo_nil, wrapChunksGo_nil]
    | 0, _, c0 :: rest => exact absurd hn (by omega)
    | _ + 1, 0, c0 :: rest => exact absurd hm (by omega)
    | n' + 1, m' + 1, c0 :: rest =>
      rw [wrapChunksGo, wrapChunksGo]
      have hmeas := wrapIter_measure w b c0 rest
      have heq := ih n' (by omega) m' (wrapIter w b (c0 :: rest)).2.2
        (wrapIter w b (c0 :: rest)).2.1 (by omega) (by omega)
      rw [heq]

theorem wrapChunksGo_len_le {w : Nat} (hw : 1 ≤ w) :
    ∀ (fuel : Nat) (b : Bool) (cs : List (List Char)),
      ∀ l ∈ wrapChunksGo w fuel b cs, l.length ≤ w := by
  intro fuel
  induction fuel with
  | zero =>
    intro b cs l hl
    match cs with
    | [] => simp [wrapChunksGo] at hl
    | c0 :: rest => simp [wrapChunksGo] at hl
  | succ fuel ih =>
    intro b cs l hl
    match cs with
    | [] => simp [wrapChunksGo] at hl
    | c0 :: rest =>
      rw [wrapChunksGo] at hl
      rcases List.mem_append.mp hl with hline | hrec
      · exact wrapIter_lines_le hw b (c0 :: rest) l hline
      · exact ih _ _ l hrec

/-- Every line `textwrap.wrap` produces fits within the width (long words
are broken, `break_long_words=True`). -/
theorem textwrap_wrap_len_le {t : List Char} {w : Nat} (hw : 1 ≤ w) :
    ∀ l ∈ textwrap_wrap t w, l.length ≤ w := by
  intro l hl
  exact wrapChunksGo_len_le hw _ _ _ l hl

theorem isWsChunk_of_space {t : List Char} (h : ∀ c ∈ t, c = ' ') : isWsChunk t = true := by
  rw [isWsChunk, List.all_eq_true]
  intro c hc
  rw [h c hc]
  decide

theorem expandTabs8_ws :
    ∀ (t : List Char) (col : Nat), (∀ c ∈ t, isPyWS6 c = true) →
      ∀ c ∈ expandTabs8 col t, isPyWS6 c = true := by
  intro t
  induction t with
  | nil => intro col h c hc; simp [expandTabs8] at hc
  | cons d rest ih =>
    intro col h c hc
    have hd : isPyWS6 d = true := h d (List.mem_cons_self _ _)
    have hrest : ∀ c ∈ rest, isPyWS6 c = true := fun c hc => h c (List.mem_cons_of_mem _ hc)
    by_cases hdt : d = '\t'
    · rw [expandTabs8, if_pos hdt] at hc
      rcases List.mem_append.mp hc with hrep | hrec
      · have := List.eq_of_mem_replicate hrep
        rw [this]; decide
      · exact ih _ hrest c hrec
    · by_cases hdnl : d = '\n' ∨ d = '\r'
      · rw [expandTabs8, if_neg hdt, if_pos hdnl] at hc
        rcases List.mem_cons.mp hc with heq | hrec
        · rw [heq]; exact hd
        · exact ih _ hrest c hrec
      · rw [expandTabs8, if_neg hdt, if_neg hdnl] at hc
        rcases List.mem_cons.mp hc with heq | hrec
        · rw [heq]; exact hd
        · exact ih _ hrest c hrec

theorem mungeWhitespace_space {t : List Char} (h : ∀ c ∈ t, isPyWS6 c = true) :
    ∀ c ∈ mungeWhitespace t, c = ' ' := by
  intro c hc
  unfold mungeWhitespace at hc
  rcases List.mem_map.mp hc with ⟨d, hd, hmap⟩
  have hdws := expandTabs8_ws t 0 h d hd
  rw [← hmap, if_pos hdws]

theorem pySplitGo_nil (fuel : Nat) (prev : List Char) : pySplitGo fuel prev [] = [] := by
  cases fuel with
  | zero => rfl
  | succ n => rfl

theorem pySplit_space {t : List Char} (h : ∀ c ∈ t, c = ' ') :
    pySplit t = if t.isEmpty then [] else [t] := by
  unfold pySplit
  cases t with
  | nil => rfl
  | cons c cs =>
    have hwsall : ∀ x ∈ c :: cs, isPyWS6 x = true := by
      intro x hx
      rw [h x hx]
      decide
    have hcws : isPyWS6 c = true := hwsall c (List.mem_cons_self _ _)
    rw [pySplitGo]
    rw [if_pos hcws]
    have htw : (c :: cs).takeWhile isPyWS6 = c :: cs := List.takeWhile_eq_self_iff.mpr hwsall
    rw [htw]
    dsimp only
    rw [List.drop_length, pySplitGo_nil]
    simp

theorem wrapIter_space (w : Nat) (b : Bool) {t : List Char} (h : ∀ c ∈ t, c = ' ') :
    (wrapIter w b [t]).1 = [] ∧
    ((wrapIter w b [t]).2.1 = [] ∨
      ∃ t', (wrapIter w b [t]).2.1 = [t'] ∧ ∀ c ∈ t', c = ' ') := by
  have hws : isWsChunk t = true := isWsChunk_of_space h
  unfold wrapIter
  dsimp only
  by_cases hdrop : (b && isWsChunk t) = true
  · rw [if_pos hdrop]
    exact ⟨by simp [greedyTake, lineOf, dropTrailingWs], Or.inl (by simp [greedyTake])⟩
  · rw [if_neg hdrop]
    by_cases hfit : 0 + t.length ≤ w
    · have hg : greedyTake w 0 [t] = ([t], []) := by
        unfold greedyTake
        rw [if_pos hfit]
        rfl
      rw [hg]
      dsimp only
      constructor
      · simp [lineOf, dropTrailingWs, hws]
      · exact Or.inl rfl
    · have hg : greedyTake w 0 [t] = ([], [t]) := by
        unfold greedyTake
        rw [if_neg hfit]
      rw [hg]
      dsimp only
      have hlong : w < t.length := by omega
      rw [if_pos hlong]
      dsimp only
      constructor
      · have hpc : ∀ c ∈ (handleLongWord w (sumLen ([] : List (List Char))) t).1, c = ' ' := by
          intro c hc
          unfold handleLongWord at hc
          exact h c (List.mem_of_mem_take hc)
        simp [lineOf, dropTrailingWs, isWsChunk_of_space hpc]
      · right
        refine ⟨(handleLongWord w (sumLen ([] : List (List Char))) t).2, rfl, ?_⟩
        intro c hc
        unfold handleLongWord at hc
        exact h c (List.mem_of_mem_drop hc)

theorem wrapChunksGo_space (w : Nat) :
    ∀ fuel (b : Bool) (t : List Char), (∀ c ∈ t, c = ' ') →
      wrapChunksGo w fuel b [t] = [] := by
  intro fuel
  induction fuel with
  | zero => intro b t h; rfl
  | succ n ih =>
    intro b t h
    rw [wrapChunksGo]
    obtain ⟨h1, h2⟩ := wrapIter_space w b h
    rw [h1, List.nil_append]
    rcases h2 with hnil | ⟨t', ht', hsp⟩
    · rw [hnil, wrapChunksGo_nil]
    · rw [ht']
      exact ih _ t' hsp

/-- Empty or whitespace-only text wraps to zero lines. -/
theorem textwrap_wrap_ws {t : List Char} (h : ∀ c ∈ t, isPyWS6 c = true) (w : Nat) :
    textwrap_wrap t w = [] := by
  unfold textwrap_wrap wrapChunks
  have hm : ∀ c ∈ mungeWhitespace t, c = ' ' := mungeWhitespace_space h
  rw [pySplit_space hm]
  by_cases he : (mungeWhitespace t).isEmpty
  · rw [if_pos he, wrapChunksGo_nil]
  · rw [if_neg he]
    exact wrapChunksGo_space w _ false (mungeWhitespace t) hm

theorem wordLenGo_ge (prev rest : List Char) :
    ∀ (fuel k : Nat), k ≤ wordLenGo prev rest k fuel := by
  intro fuel
  induction fuel with
  | zero => intro k; exact le_refl _
  | succ n ih =>
    intro k
    rw [wordLenGo]
    by_cases h1 : condC1 prev rest k = true
    · rw [if_pos h1]; omega
    · rw [if_neg h1]
      by_cases h2 : condC2 rest k = true
      · rw [if_pos h2]
      · rw [if_neg h2]
        by_cases h3 : condC3 rest k = true
        · rw [if_pos h3]
        · rw [if_neg h3]
          have := ih (k + 1)
          omega

theorem wordLen_ge_one (prev rest : List Char) : 1 ≤ wordLen prev rest := by
  unfold wordLen
  exact wordLenGo_ge prev rest _ 1

theorem emDashCond_run {prev rest : List Char} (h : emDashCond prev rest = true) :
    1 ≤ (rest.takeWhile (fun x => x == '-')).length := by
  unfold emDashCond at h
  simp only [Bool.and_eq_true, decide_eq_true_eq] at h
  omega

theorem pySplitGo_fuel :
    ∀ n m : Nat, ∀ (prev rest : List Char), rest.length < n → rest.length < m →
      pySplitGo n prev rest = pySplitGo m prev rest := by
  intro n
  induction n using Nat.strong_induction_on with
  | _ n ih =>
    intro m prev rest hn hm
    match n, m, rest with
    | n, m, [] => rw [pySplitGo_nil, pySplitGo_nil]
    | 0, _, c :: cs => exact absurd hn (by omega)
    | _ + 1, 0, c :: cs => exact absurd hm (by omega)
    | n' + 1, m' + 1, c :: cs =>
      simp only [List.length_cons] at hn hm
      rw [pySplitGo, pySplitGo]
      dsimp only
      by_cases hws : isPyWS6 c = true
      · rw [if_pos hws, if_pos hws]
        have htok : 1 ≤ ((c :: cs).takeWhile isPyWS6).length := by
          rw [List.takeWhile_cons, if_pos hws]
          simp
        have hlen : (List.drop ((c :: cs).takeWhile isPyWS6).length (c :: cs)).length < n' := by
          simp only [List.length_drop, List.length_cons]
          omega
        have hlenm : (List.drop ((c :: cs).takeWhile isPyWS6).length (c :: cs)).length < m' := by
          simp only [List.length_drop, List.length_cons]
          omega
        rw [ih n' (by omega) m' _ _ hlen hlenm]
      · rw [if_neg hws, if_neg hws]
        by_cases hed : emDashCond prev (c :: cs) = true
        · rw [if_pos hed, if_pos hed]
          have htok := emDashCond_run hed
          have hlen : (List.drop ((c :: cs).takeWhile (fun x => x == '-')).length (c :: cs)).length < n' := by
            simp only [List.length_drop, List.length_cons]
            omega
          have hlenm : (List.drop ((c :: cs).takeWhile (fun x => x == '-')).length (c :: cs)).length < m' := by
            simp only [List.length_drop, List.length_cons]
            omega
          rw [ih n' (by omega) m' _ _ hlen hlenm]
        · rw [if_neg hed, if_neg hed]
          have htok := wordLen_ge_one prev (c :: cs)
          have hlen : (List.drop (wordLen prev (c :: cs)) (c :: cs)).length < n' := by
            simp only [List.length_drop, List.length_cons]
            omega
          have hlenm : (List.drop (wordLen prev (c :: cs)) (c :: cs)).length < m' := by
            simp only [List.length_drop, List.length_cons]
            omega
          rw [ih n' (by omega) m' _ _ hlen hlenm]

/-- C3 (counterexample): on the single word `abcde` with width 3 the wrapper
breaks the word (`break_long_words=True` is the `textwrap.wrap` default the
source inherits); it does not place the over-long word alone, unsplit, on its
own line, and no produced line has the word's length. -/
theorem c3_counterexample :
    3 < ("abcde".data).length
    ∧ textwrap_wrap ("abcde".data) 3 = ["abc".data, "de".data]
    ∧ ("abcde".data ∈ textwrap_wrap ("abcde".data) 3 → False) := by
  refine ⟨by decide, by decide, ?_⟩
  intro hmem
  have : textwrap_wrap ("abcde".data) 3 = ["abc".data, "de".data] := by decide
  rw [this] at hmem
  exact absurd hmem (by decide)

/-- C3 (amended): for `w > 0` every line `textwrap.wrap` produces has length
at most `w`; a word longer than `w` is broken across lines rather than
placed alone on an over-length line. -/
theorem c3_wrap_lines_bounded : ∀ (t : List Char) (w : Nat), 1 ≤ w →
    (∀ l ∈ textwrap_wrap t w, l.length ≤ w)
    ∧ (textwrap_wrap t w).all (fun l => l.length ≤ w) = true := by
  intro t w hw
  refine ⟨textwrap_wrap_len_le hw, ?_⟩
  rw [List.all_eq_true]
  intro l hl
  exact decide_eq_true (textwrap_wrap_len_le hw l hl)

theorem c3_wrap_lines_bounded_witness :
    1 ≤ 5
    ∧ (textwrap_wrap ("hello world wrapping".data) 5).all (fun l => l.length ≤ 5) = true :=
  ⟨by decide, (c3_wrap_lines_bounded ("hello world wrapping".data) 5 (by decide)).2⟩

example : fmt2f 48 = "48.00".data := by decide
example : fmt2f (19 / 2) = "9.50".data := by decide
example : fmt2f (47 / 5) = "9.40".data := by decide
example : fmt2f (-16) = "-16.00".data := by decide
example : fmt2f 760 = "760.00".data := by decide

namespace Summary

/-- Successful line-drawing steps lower the cursor by exactly 12 points per
line; the only error either line step raises is the overflow message. -/
theorem foldlM_line_y (f : LayoutState → List Char → Except (List Char) LayoutState)
    (hy : ∀ st l st', f st l = .ok st' → st'.y = st.y - 12) :
    ∀ (lines : List (List Char)) (st st' : LayoutState),
      lines.foldlM f st = .ok st' → st'.y = st.y - 12 * lines.length := by
  intro lines
  induction lines with
  | nil =>
    intro st st' h
    rw [List.foldlM_nil] at h
    cases h
    simp
  | cons l rest ih =>
    intro st st' h
    rw [List.foldlM_cons] at h
    cases hf : f st l with
    | error m =>
      rw [hf] at h
      cases h
    | ok st1 =>
      rw [hf] at h
      have h1 := hy st l st1 hf
      have h2 := ih st1 st' h
      rw [h2, h1]
      simp only [List.length_cons]
      push_cast
      ring

theorem foldlM_line_err (f : LayoutState → List Char → Except (List Char) LayoutState)
    (herr : ∀ st l m, f st l = .error m → m = ovMsg) :
    ∀ (lines : List (List Char)) (st : LayoutState) (m : List Char),
      lines.foldlM f st = .error m → m = ovMsg := by
  intro lines
  induction lines with
  | nil =>
    intro st m h
    rw [List.foldlM_nil] at h
    cases h
  | cons l rest ih =>
    intro st m h
    rw [List.foldlM_cons] at h
    cases hf : f st l with
    | error m' =>
      rw [hf] at h
      cases h
      exact herr st l m hf
    | ok st1 =>
      rw [hf] at h
      exact ih st1 m h

theorem paraLine_ok_y : ∀ (st : LayoutState) (l : List Char) (st' : LayoutState),
    paraLine st l = .ok st' → st'.y = st.y - 12 := by
  intro st l st' h
  unfold paraLine at h
  by_cases hb : st.y < BOTTOM
  · rw [if_pos hb] at h; cases h
  · rw [if_neg hb] at h; cases h; rfl

theorem paraLine_err : ∀ (st : LayoutState) (l : List Char) (m : List Char),
    paraLine st l = .error m → m = ovMsg := by
  intro st l m h
  unfold paraLine at h
  by_cases hb : st.y < BOTTOM
  · rw [if_pos hb] at h; cases h; rfl
  · rw [if_neg hb] at h; cases h

theorem bulletCont_ok_y : ∀ (st : LayoutState) (l : List Char) (st' : LayoutState),
    bulletCont st l = .ok st' → st'.y = st.y - 12 := by
  intro st l st' h
  unfold bulletCont at h
  by_cases hb : st.y < BOTTOM
  · rw [if_pos hb] at h; cases h
  · rw [if_neg hb] at h; cases h; rfl

theorem bulletCont_err : ∀ (st : LayoutState) (l : List Char) (m : List Char),
    bulletCont st l = .error m → m = ovMsg := by
  intro st l m h
  unfold bulletCont at h
  by_cases hb : st.y < BOTTOM
  · rw [if_pos hb] at h; cases h; rfl
  · rw [if_neg hb] at h; cases h

/-- A successful element step lowers the cursor by exactly the element's
advance. -/
theorem step_ok_y : ∀ (st : LayoutState) (e : Elem) (st' : LayoutState),
    step st e = .ok st' → st'.y = st.y - advance e := by
  intro st e st' h
  cases e with
  | title t => cases h; rfl
  | subtitle t => cases h; rfl
  | sectionH t => cases h; rfl
  | paragraph t w =>
    have := foldlM_line_y paraLine paraLine_ok_y (textwrap_wrap t w) st st' h
    rw [this]
    rfl
  | bullet t w =>
    simp only [step] at h
    unfold bullet at h
    cases hw : textwrap_wrap t w with
    | nil =>
      rw [hw] at h
      cases h
      simp [advance, hw]
    | cons l0 rest =>
      rw [hw] at h
      dsimp only at h
      by_cases hb : st.y < BOTTOM
      · rw [if_pos hb] at h; cases h
      · rw [if_neg hb] at h
        have := foldlM_line_y bulletCont bulletCont_ok_y rest _ st' h
        rw [this]
        simp only [advance, hw, List.length_cons]
        push_cast
        ring
  | gap p => cases h; rfl

theorem step_err : ∀ (st : LayoutState) (e : Elem) (m : List Char),
    step st e = .error m → m = ovMsg := by
  intro st e m h
  cases e with
  | title t => cases h
  | subtitle t => cases h
  | sectionH t => cases h
  | paragraph t w => exact foldlM_line_err paraLine paraLine_err _ st m h
  | bullet t w =>
    simp only [step] at h
    unfold bullet at h
    cases hw : textwrap_wrap t w with
    | nil => rw [hw] at h; cases h
    | cons l0 rest =>
      rw [hw] at h
      dsimp only at h
      by_cases hb : st.y < BOTTOM
      · rw [if_pos hb] at h; cases h; rfl
      · rw [if_neg hb] at h
        exact foldlM_line_err bulletCont bulletCont_err rest _ m h
  | gap p => cases h

/-- Successful processing lowers the cursor by exactly the content's
required vertical space. -/
theorem process_ok_y : ∀ (es : List Elem) (st st' : LayoutState),
    process es st = .ok st' → st'.y = st.y - requiredSpace es := by
  intro es
  induction es with
  | nil =>
    intro st st' h
    cases h
    simp [requiredSpace]
  | cons e rest ih =>
    intro st st' h
    unfold process at h
    rw [List.foldlM_cons] at h
    cases hf : step st e with
    | error m => rw [hf] at h; cases h
    | ok st1 =>
      rw [hf] at h
      have h1 := step_ok_y st e st1 hf
      have h2 := ih st1 st' h
      rw [h2, h1]
      simp only [requiredSpace, List.map_cons, List.sum_cons]
      ring

theorem process_err : ∀ (es : List Elem) (st : LayoutState) (m : List Char),
    process es st = .error m → m = ovMsg := by
  intro es
  induction es with
  | nil => intro st m h; cases h
  | cons e rest ih =>
    intro st m h
    unfold process at h
    rw [List.foldlM_cons] at h
    cases hf : step st e with
    | error m' =>
      rw [hf] at h
      cases h
      exact step_err st e m hf
    | ok st1 =>
      rw [hf] at h
      exact ih st1 m h

end Summary

/-- C4: in the strict single-page script, any content whose required
vertical space exceeds the page body height (`TOP - BOTTOM` = 718 points)
by at least one 12-point line makes `build_summary_pdf` fail with the
content-overflow error, and no bytes are produced for writing (the `ok`
payload is the only path to `output_path.write_bytes`). -/
theorem c4_strict_overflow_fails : ∀ es : List Summary.Elem,
    (Summary.TOP - Summary.BOTTOM) + 12 ≤ Summary.requiredSpace es →
    Summary.build_summary_pdf es = .error Summary.ovMsg := by
  intro es hreq
  unfold Summary.build_summary_pdf
  cases hp : Summary.process es Summary.initState with
  | error m =>
    have := Summary.process_err es _ m hp
    rw [this]
    rfl
  | ok st =>
    have hy := Summary.process_ok_y es _ st hp
    have hlt : st.y < Summary.BOTTOM := by
      rw [hy]
      show Summary.initState.y - Summary.requiredSpace es < Summary.BOTTOM
      have h1 : Summary.initState.y = Summary.TOP := rfl
      rw [h1]
      linarith
    show (if st.y < Summary.BOTTOM then Except.error Summary.ovMsg
      else Except.ok (Summary.build st.commands)) = Except.error Summary.ovMsg
    rw [if_pos hlt]

theorem c4_strict_overflow_fails_witness :
    (Summary.TOP - Summary.BOTTOM) + 12 ≤ Summary.requiredSpace [Summary.Elem.gap 730]
    ∧ Summary.build_summary_pdf [Summary.Elem.gap 730] = .error Summary.ovMsg :=
  ⟨by decide, c4_strict_overflow_fails [Summary.Elem.gap 730] (by decide)⟩

/-- C6: empty or whitespace-only text wraps to zero lines, and a Paragraph
or Bullet element with such text emits no draw commands and leaves the
layout cursor (the whole layout state) unchanged, in both the strict and
the paginating script. -/
theorem c6_whitespace_noop : ∀ t : List Char, (∀ c ∈ t, isPyWS6 c = true) →
    ∀ (w : Nat) (sst : Summary.LayoutState) (wst : Walkthrough.WState),
      textwrap_wrap t w = []
      ∧ Summary.step sst (Summary.Elem.paragraph t w) = .ok sst
      ∧ Summary.step sst (Summary.Elem.bullet t w) = .ok sst
      ∧ Walkthrough.step wst (Walkthrough.Elem.paragraph t w) = wst
      ∧ Walkthrough.step wst (Walkthrough.Elem.bullet t w) = wst := by
  intro t h w sst wst
  have hw := textwrap_wrap_ws h w
  refine ⟨hw, ?_, ?_, ?_, ?_⟩
  · show Summary.paragraph sst t w = .ok sst
    unfold Summary.paragraph
    rw [hw, List.foldlM_nil]
    rfl
  · show Summary.bullet sst t w = .ok sst
    unfold Summary.bullet
    rw [hw]
  · show Walkthrough.paragraph wst t w = wst
    unfold Walkthrough.paragraph
    rw [hw]
    rfl
  · show Walkthrough.bullet wst t w = wst
    unfold Walkthrough.bullet
    rw [hw]

theorem c6_whitespace_noop_witness :
    (∀ c ∈ (" \t  \n ".data), isPyWS6 c = true)
    ∧ (textwrap_wrap (" \t  \n ".data) 102 = []
      ∧ Summary.step Summary.initState (Summary.Elem.paragraph (" \t  \n ".data) 102)
          = .ok Summary.initState
      ∧ Summary.step Summary.initState (Summary.Elem.bullet (" \t  \n ".data) 102)
          = .ok Summary.initState
      ∧ Walkthrough.step Walkthrough.initState
          (Walkthrough.Elem.paragraph (" \t  \n ".data) 102) = Walkthrough.initState
      ∧ Walkthrough.step Walkthrough.initState
          (Walkthrough.Elem.bullet (" \t  \n ".data) 102) = Walkthrough.initState) :=
  ⟨by decide, c6_whitespace_noop (" \t  \n ".data) (by decide) 102
    Summary.initState Walkthrough.initState⟩

namespace Walkthrough

theorem cmdsInBody_iff (pages : List (List DrawCmd)) :
    cmdsInBody pages = true ↔ ∀ pg ∈ pages, ∀ c ∈ pg, BOTTOM < c.y ∧ c.y ≤ TOP := by
  unfold cmdsInBody
  simp [List.all_eq_true]

theorem mem_getLastD_cases {pages : List (List DrawCmd)} {d : DrawCmd} :
    ∀ dflt : List DrawCmd, d ∈ pages.getLastD dflt →
      (∃ pg ∈ pages, d ∈ pg) ∨ d ∈ dflt := by
  induction pages with
  | nil => intro dflt hd; exact Or.inr hd
  | cons p ps ih =>
    intro dflt hd
    rw [List.getLastD_cons] at hd
    rcases ih p hd with ⟨pg, hpg, hdpg⟩ | hdp
    · exact Or.inl ⟨pg, List.mem_cons_of_mem _ hpg, hdpg⟩
    · exact Or.inl ⟨p, List.mem_cons_self _ _, hdp⟩

theorem appendToLast_good {pages : List (List DrawCmd)} {c : DrawCmd}
    (h : ∀ pg ∈ pages, ∀ d ∈ pg, BOTTOM < d.y ∧ d.y ≤ TOP)
    (hc : BOTTOM < c.y ∧ c.y ≤ TOP) :
    ∀ pg ∈ appendToLast pages c, ∀ d ∈ pg, BOTTOM < d.y ∧ d.y ≤ TOP := by
  intro pg hpg d hd
  unfold appendToLast at hpg
  rcases List.mem_append.mp hpg with hdrop | hlast
  · exact h pg ((List.dropLast_sublist pages).mem hdrop) d hd
  · rw [List.mem_singleton] at hlast
    subst hlast
    rcases List.mem_append.mp hd with hin | hc'
    · rcases mem_getLastD_cases [] hin with ⟨pg', hpg', hd'⟩ | habs
      · exact h pg' hpg' d hd'
      · cases habs
    · rw [List.mem_singleton] at hc'
      subst hc'
      exact hc

theorem appendToLast_length {pages : List (List DrawCmd)} (c : DrawCmd)
    (h : 1 ≤ pages.length) : (appendToLast pages c).length = pages.length := by
  unfold appendToLast
  rw [List.length_append, List.length_dropLast]
  simp
  omega

theorem cmdsInBody_iff_good (pages : List (List DrawCmd)) :
    cmdsInBody pages = true ↔ GoodPages pages := cmdsInBody_iff pages

theorem GoodPages_newPage {pages : List (List DrawCmd)} (h : GoodPages pages) :
    GoodPages (pages ++ [[]]) := by
  intro pg hpg d hd
  rcases List.mem_append.mp hpg with hp | hp
  · exact h pg hp d hd
  · rw [List.mem_singleton] at hp
    subst hp
    cases hd

/-- One drawn item: `_next_page_if_needed(req)`, then `text(...)` at the
(possibly reset) cursor, then a cursor advance of `adv ≥ 0`.  All the layout
invariants are preserved, and the potential
`(pages-1)·688 + (TOP - y)` grows by at most `adv`: a page is only ever
opened when the cursor has sunk below `BOTTOM + req ≤ 72`, i.e. after at
least `688` points of the current page were consumed. -/
theorem drawStep_inv (st : WState) (x : ℚ) (t font : List Char) (size req adv : ℚ)
    (hreq1 : 0 < req) (hreq2 : req ≤ 26) (hadv1 : 0 ≤ adv)
    (h1 : 1 ≤ st.pages.length) (h2 : st.y ≤ TOP) (h3 : GoodPages st.pages) :
    1 ≤ (wtext (nextPageIfNeeded st req) x t font size).pages.length
    ∧ (wtext (nextPageIfNeeded st req) x t font size).y - adv ≤ TOP
    ∧ GoodPages (wtext (nextPageIfNeeded st req) x t font size).pages
    ∧ (((wtext (nextPageIfNeeded st req) x t font size).pages.length : ℚ) - 1) * 688
        + (TOP - ((wtext (nextPageIfNeeded st req) x t font size).y - adv))
      ≤ (((st.pages.length : ℚ) - 1) * 688 + (TOP - st.y)) + adv := by
  unfold nextPageIfNeeded
  by_cases hov : st.y - req < BOTTOM
  · rw [if_pos hov]
    unfold wtext
    dsimp only
    have hlen1 : 1 ≤ (st.pages ++ [[]]).length := by
      rw [List.length_append]
      omega
    have hlen : (appendToLast (st.pages ++ [[]]) ⟨x, TOP, t, font, size⟩).length
        = st.pages.length + 1 := by
      rw [appendToLast_length _ hlen1, List.length_append]
      rfl
    have hcy : BOTTOM < (TOP : ℚ) ∧ (TOP : ℚ) ≤ TOP := by
      constructor
      · show (46 : ℚ) < 760
        norm_num
      · exact le_refl _
    refine ⟨by omega, by linarith, ?_, ?_⟩
    · exact appendToLast_good (GoodPages_newPage h3) hcy
    · rw [hlen]
      have hy72 : st.y < 72 := by
        show st.y < 72
        have hb : (BOTTOM : ℚ) = 46 := rfl
        rw [hb] at hov
        linarith
      push_cast
      have ht : (TOP : ℚ) = 760 := rfl
      rw [ht] at h2 ⊢
      linarith
  · rw [if_neg hov]
    unfold wtext
    dsimp only
    have hlen : (appendToLast st.pages ⟨x, st.y, t, font, size⟩).length
        = st.pages.length := appendToLast_length _ h1
    have hcy : BOTTOM < st.y ∧ st.y ≤ TOP := by
      constructor
      · linarith
      · exact h2
    refine ⟨by omega, by linarith, ?_, ?_⟩
    · exact appendToLast_good h3 hcy
    · rw [hlen]
      linarith

/-- Gaps lower the cursor; the potential again grows by exactly the
advance. -/
theorem gap_inv (st : WState) (p : ℚ) (hp : 0 ≤ p)
    (h1 : 1 ≤ st.pages.length) (h2 : st.y ≤ TOP) (h3 : GoodPages st.pages) :
    1 ≤ (gap st p).pages.length ∧ (gap st p).y ≤ TOP ∧ GoodPages (gap st p).pages
    ∧ (((gap st p).pages.length : ℚ) - 1) * 688 + (TOP - (gap st p).y)
      ≤ (((st.pages.length : ℚ) - 1) * 688 + (TOP - st.y)) + p := by
  unfold gap
  dsimp only
  exact ⟨h1, by linarith, h3, by linarith⟩

theorem foldl_lineStep_inv (x : ℚ) (font : List Char) (size : ℚ) :
    ∀ (lines : List (List Char)) (st : WState),
      1 ≤ st.pages.length → st.y ≤ TOP → GoodPages st.pages →
      1 ≤ (lines.foldl (lineStep x font size) st).pages.length
      ∧ (lines.foldl (lineStep x font size) st).y ≤ TOP
      ∧ GoodPages (lines.foldl (lineStep x font size) st).pages
      ∧ (((lines.foldl (lineStep x font size) st).pages.length : ℚ) - 1) * 688
          + (TOP - (lines.foldl (lineStep x font size) st).y)
        ≤ (((st.pages.length : ℚ) - 1) * 688 + (TOP - st.y)) + 12 * lines.length := by
  intro lines
  induction lines with
  | nil =>
    intro st ha hb hc
    exact ⟨ha, hb, hc, by simp⟩
  | cons l rest ih =>
    intro st ha hb hc
    rw [List.foldl_cons]
    have hstep := drawStep_inv st x l font size 12 12 (by norm_num) (by norm_num)
      (by norm_num) ha hb hc
    have hs1 : 1 ≤ (lineStep x font size st l).pages.length := hstep.1
    have hs2 : (lineStep x font size st l).y ≤ TOP := hstep.2.1
    have hs3 : GoodPages (lineStep x font size st l).pages := hstep.2.2.1
    have h4 : (((lineStep x font size st l).pages.length : ℚ) - 1) * 688
        + (TOP - (lineStep x font size st l).y)
        ≤ (((st.pages.length : ℚ) - 1) * 688 + (TOP - st.y)) + 12 := hstep.2.2.2
    have hrec := ih (lineStep x font size st l) hs1 hs2 hs3
    refine ⟨hrec.1, hrec.2.1, hrec.2.2.1, ?_⟩
    have h5 := hrec.2.2.2
    simp only [List.length_cons]
    push_cast
    linarith

/-- Every element step preserves the layout invariants, and the potential
grows by at most the element's advance (gaps must be nonnegative). -/
theorem step_inv (st : WState) (e : Elem) (hg : ∀ p : ℚ, e = Elem.gap p → 0 ≤ p)
    (h1 : 1 ≤ st.pages.length) (h2 : st.y ≤ TOP) (h3 : GoodPages st.pages) :
    1 ≤ (step st e).pages.length ∧ (step st e).y ≤ TOP ∧ GoodPages (step st e).pages
    ∧ (((step st e).pages.length : ℚ) - 1) * 688 + (TOP - (step st e).y)
      ≤ (((st.pages.length : ℚ) - 1) * 688 + (TOP - st.y)) + advance e := by
  cases e with
  | title t =>
    exact drawStep_inv st LEFT t ("F2".data) 19 26 24 (by norm_num) (by norm_num)
      (by norm_num) h1 h2 h3
  | subtitle t =>
    exact drawStep_inv st LEFT t ("F3".data) 10 15 15 (by norm_num) (by norm_num)
      (by norm_num) h1 h2 h3
  | sectionH t =>
    exact drawStep_inv st LEFT t ("F2".data) 13 18 16 (by norm_num) (by norm_num)
      (by norm_num) h1 h2 h3
  | subsection t =>
    exact drawStep_inv st LEFT t ("F2".data) 11 15 14 (by norm_num) (by norm_num)
      (by norm_num) h1 h2 h3
  | paragraph t w =>
    exact foldl_lineStep_inv LEFT ("F1".data) 10 (textwrap_wrap t w) st h1 h2 h3
  | bullet t w =>
    have hbul : 1 ≤ (bullet st t w).pages.length ∧ (bullet st t w).y ≤ TOP
        ∧ GoodPages (bullet st t w).pages
        ∧ (((bullet st t w).pages.length : ℚ) - 1) * 688 + (TOP - (bullet st t w).y)
          ≤ (((st.pages.length : ℚ) - 1) * 688 + (TOP - st.y)) + advance (Elem.bullet t w) := by
      cases hw : textwrap_wrap t w with
      | nil =>
        have hb : bullet st t w = st := by
          unfold bullet
          rw [hw]
        have hadv : advance (Elem.bullet t w) = 0 := by
          show 12 * ((textwrap_wrap t w).length : ℚ) = 0
          rw [hw]
          simp
        rw [hb, hadv]
        exact ⟨h1, h2, h3, by linarith⟩
      | cons l0 rest =>
        have hb : bullet st t w
            = rest.foldl (lineStep (LEFT + 16) ("F1".data) 10)
                (lineStep (LEFT + 2) ("F1".data) 10 st ("- ".data ++ l0)) := by
          unfold bullet
          rw [hw]
        have hfirst := drawStep_inv st (LEFT + 2) ("- ".data ++ l0) ("F1".data) 10 12 12
          (by norm_num) (by norm_num) (by norm_num) h1 h2 h3
        have hf1 : 1 ≤ (lineStep (LEFT + 2) ("F1".data) 10 st ("- ".data ++ l0)).pages.length :=
          hfirst.1
        have hf2 : (lineStep (LEFT + 2) ("F1".data) 10 st ("- ".data ++ l0)).y ≤ TOP :=
          hfirst.2.1
        have hf3 : GoodPages (lineStep (LEFT + 2) ("F1".data) 10 st ("- ".data ++ l0)).pages :=
          hfirst.2.2.1
        have h4 : (((lineStep (LEFT + 2) ("F1".data) 10 st ("- ".data ++ l0)).pages.length : ℚ) - 1)
            * 688 + (TOP - (lineStep (LEFT + 2) ("F1".data) 10 st ("- ".data ++ l0)).y)
            ≤ (((st.pages.length : ℚ) - 1) * 688 + (TOP - st.y)) + 12 := hfirst.2.2.2
        have hrest := foldl_lineStep_inv (LEFT + 16) ("F1".data) 10 rest
          (lineStep (LEFT + 2) ("F1".data) 10 st ("- ".data ++ l0)) hf1 hf2 hf3
        have hadv : advance (Elem.bullet t w) = 12 * ((rest.length : ℚ) + 1) := by
          show 12 * ((textwrap_wrap t w).length : ℚ) = _
          rw [hw]
          push_cast [List.length_cons]
          ring
        rw [hb, hadv]
        refine ⟨hrest.1, hrest.2.1, hrest.2.2.1, ?_⟩
        have h5 := hrest.2.2.2
        linarith
    exact hbul
  | codeLine t =>
    exact drawStep_inv st (LEFT + 8) t ("F4".data) (47 / 5) 12 12 (by norm_num)
      (by norm_num) (by norm_num) h1 h2 h3
  | gap p =>
    exact gap_inv st p (hg p rfl) h1 h2 h3

theorem gapsNonneg_cons {e : Elem} {rest : List Elem} (h : gapsNonneg (e :: rest)) :
    (∀ p : ℚ, e = Elem.gap p → 0 ≤ p) ∧ gapsNonneg rest := by
  constructor
  · intro p hp
    subst hp
    have := h _ (List.mem_cons_self _ _)
    simpa [gapNN] using this
  · intro e' he'
    exact h e' (List.mem_cons_of_mem _ he')

/-- Processing any element sequence with nonnegative gaps keeps the layout
invariants, and the final potential is bounded by the initial one plus the
content's required space. -/
theorem process_inv (es : List Elem) :
    ∀ st : WState, gapsNonneg es →
      1 ≤ st.pages.length → st.y ≤ TOP → GoodPages st.pages →
      1 ≤ (process es st).pages.length ∧ (process es st).y ≤ TOP
      ∧ GoodPages (process es st).pages
      ∧ (((process es st).pages.length : ℚ) - 1) * 688 + (TOP - (process es st).y)
        ≤ (((st.pages.length : ℚ) - 1) * 688 + (TOP - st.y)) + requiredSpace es := by
  induction es with
  | nil =>
    intro st hg h1 h2 h3
    refine ⟨h1, h2, h3, ?_⟩
    simp [process, requiredSpace]
  | cons e rest ih =>
    intro st hg h1 h2 h3
    obtain ⟨hge, hgr⟩ := gapsNonneg_cons hg
    have hs := step_inv st e hge h1 h2 h3
    have hr := ih (step st e) hgr hs.1 hs.2.1 hs.2.2.1
    show 1 ≤ (process rest (step st e)).pages.length
      ∧ (process rest (step st e)).y ≤ TOP
      ∧ GoodPages (process rest (step st e)).pages
      ∧ (((process rest (step st e)).pages.length : ℚ) - 1) * 688
          + (TOP - (process rest (step st e)).y)
        ≤ (((st.pages.length : ℚ) - 1) * 688 + (TOP - st.y)) + requiredSpace (e :: rest)
    refine ⟨hr.1, hr.2.1, hr.2.2.1, ?_⟩
    have h4 := hs.2.2.2
    have h5 := hr.2.2.2
    have hreq : requiredSpace (e :: rest) = advance e + requiredSpace rest := by
      simp [requiredSpace]
    rw [hreq]
    linarith

theorem initState_inv :
    1 ≤ initState.pages.length ∧ initState.y ≤ TOP ∧ GoodPages initState.pages := by
  refine ⟨by decide, le_refl _, ?_⟩
  intro pg hpg d hd
  rw [show initState.pages = [[]] from rfl, List.mem_singleton] at hpg
  subst hpg
  cases hd

end Walkthrough

/-- C10: in the auto-paginating builder, every body Draw Command emitted
through a `Layout` method has a `y` coordinate strictly above the bottom
margin and at most the top margin: each emitter first ensures room for its
own draw (allocating a new page and resetting the cursor to the top margin
if needed), so drawn body text always lands inside the page body even when
preceding (nonnegative) gaps pushed the cursor below the bottom margin. -/
theorem c10_body_draws_in_body : ∀ es : List Walkthrough.Elem,
    Walkthrough.gapsNonneg es →
    (∀ pg ∈ (Walkthrough.process es Walkthrough.initState).pages,
        ∀ c ∈ pg, Walkthrough.BOTTOM < c.y ∧ c.y ≤ Walkthrough.TOP)
    ∧ Walkthrough.cmdsInBody (Walkthrough.process es Walkthrough.initState).pages = true := by
  intro es hg
  have h0 := Walkthrough.initState_inv
  have h := Walkthrough.process_inv es Walkthrough.initState hg h0.1 h0.2.1 h0.2.2
  exact ⟨h.2.2.1, (Walkthrough.cmdsInBody_iff_good _).mpr h.2.2.1⟩

theorem c10_body_draws_in_body_witness :
    Walkthrough.gapsNonneg
      [Walkthrough.Elem.gap 800, Walkthrough.Elem.codeLine ("x".data)]
    ∧ Walkthrough.cmdsInBody
        (Walkthrough.process
          [Walkthrough.Elem.gap 800, Walkthrough.Elem.codeLine ("x".data)]
          Walkthrough.initState).pages = true :=
  ⟨by decide,
    (c10_body_draws_in_body
      [Walkthrough.Elem.gap 800, Walkthrough.Elem.codeLine ("x".data)] (by decide)).2⟩

namespace Summary

theorem advance_nonneg (e : Elem) (h : gapNN e = true) : 0 ≤ advance e := by
  cases e with
  | title t => norm_num [advance]
  | subtitle t => norm_num [advance]
  | sectionH t => norm_num [advance]
  | paragraph t w =>
    show (0 : ℚ) ≤ 12 * (textwrap_wrap t w).length
    positivity
  | bullet t w =>
    show (0 : ℚ) ≤ 12 * (textwrap_wrap t w).length
    positivity
  | gap p =>
    simpa [advance, gapNN] using h

theorem requiredSpace_nonneg (es : List Elem) (h : gapsNonneg es) :
    0 ≤ requiredSpace es := by
  induction es with
  | nil => norm_num [requiredSpace]
  | cons e rest ih =>
    have h1 : gapNN e = true := h e (List.mem_cons_self _ _)
    have h2 : gapsNonneg rest := fun e' he' => h e' (List.mem_cons_of_mem _ he')
    have ha := advance_nonneg e h1
    have hr := ih h2
    show (0 : ℚ) ≤ ((e :: rest).map advance).sum
    rw [List.map_cons, List.sum_cons]
    have : requiredSpace rest = (rest.map advance).sum := rfl
    linarith [this ▸ hr]

end Summary

/-- C7 (counterexample): the claim fails as stated.  In paginating mode a
single `gap(800)` drops the cursor to `-40 < BOTTOM` with no new page ever
allocated and no failure; in strict mode a `gap(1000)` followed by
`gap(-1000)` drops the cursor to `-240 < BOTTOM` mid-build, yet the build
succeeds and writes output. -/
theorem c7_counterexample :
    ((Walkthrough.process [Walkthrough.Elem.gap 800] Walkthrough.initState).y
        < Walkthrough.BOTTOM
      ∧ (Walkthrough.process [Walkthrough.Elem.gap 800] Walkthrough.initState).pages.length
          = 1)
    ∧ (Summary.process [Summary.Elem.gap 1000] Summary.initState = .ok ⟨-240, []⟩
      ∧ ((-240 : ℚ) < Summary.BOTTOM)
      ∧ exceptOk
          (Summary.build_summary_pdf [Summary.Elem.gap 1000, Summary.Elem.gap (-1000)])
          = true) := by
  refine ⟨⟨by decide, by decide⟩, by decide, by decide, by decide⟩

/-- C7 (amended): with nonnegative gaps — the only gaps the scripts issue —
(strict) whenever the cursor is below the bottom margin after any prefix of
the content, the whole build fails with the content-overflow error; and
(paginating) no draw command is ever emitted at or below the bottom margin,
i.e. a draw issued while the cursor is below the bottom margin happens only
after a new Page has been allocated and the cursor reset to the top margin.
Gaps themselves may legally push the cursor below the bottom margin without
immediate effect. -/
theorem c7_amended_cursor_discipline :
    (∀ (p rest : List Summary.Elem) (st : Summary.LayoutState),
        Summary.gapsNonneg (p ++ rest) →
        Summary.process p Summary.initState = .ok st →
        st.y < Summary.BOTTOM →
        Summary.build_summary_pdf (p ++ rest) = .error Summary.ovMsg)
    ∧ (∀ es : List Walkthrough.Elem, Walkthrough.gapsNonneg es →
        Walkthrough.cmdsInBody
          (Walkthrough.process es Walkthrough.initState).pages = true) := by
  constructor
  · intro p rest st hg hp hy
    unfold Summary.build_summary_pdf
    have happ : Summary.process (p ++ rest) Summary.initState
        = Summary.process p Summary.initState >>= Summary.process rest := by
      unfold Summary.process
      rw [List.foldlM_append]
    rw [happ, hp]
    show Summary.process rest st >>= _ = _
    cases hr : Summary.process rest st with
    | error m =>
      have := Summary.process_err rest st m hr
      rw [this]
      rfl
    | ok st' =>
      have hy' := Summary.process_ok_y rest st st' hr
      have hrest_nn : Summary.gapsNonneg rest := by
        intro e he
        exact hg e (List.mem_append.mpr (Or.inr he))
      have hnn := Summary.requiredSpace_nonneg rest hrest_nn
      have hlt : st'.y < Summary.BOTTOM := by
        rw [hy']
        linarith
      show (if st'.y < Summary.BOTTOM then Except.error Summary.ovMsg
        else Except.ok (Summary.build st'.commands)) = Except.error Summary.ovMsg
      rw [if_pos hlt]
  · intro es hg
    have h0 := Walkthrough.initState_inv
    have h := Walkthrough.process_inv es Walkthrough.initState hg h0.1 h0.2.1 h0.2.2
    exact (Walkthrough.cmdsInBody_iff_good _).mpr h.2.2.1

theorem c7_amended_cursor_discipline_witness :
    (Summary.gapsNonneg ([Summary.Elem.gap 800] ++ [])
      ∧ Summary.process [Summary.Elem.gap 800] Summary.initState = .ok ⟨-40, []⟩
      ∧ ((-40 : ℚ) < Summary.BOTTOM)
      ∧ Summary.build_summary_pdf ([Summary.Elem.gap 800] ++ [])
          = .error Summary.ovMsg)
    ∧ (Walkthrough.gapsNonneg [Walkthrough.Elem.gap 5]
      ∧ Walkthrough.cmdsInBody
          (Walkthrough.process [Walkthrough.Elem.gap 5] Walkthrough.initState).pages
          = true) :=
  ⟨⟨by decide, by decide, by decide,
    c7_amended_cursor_discipline.1 [Summary.Elem.gap 800] [] ⟨-40, []⟩
      (by decide) (by decide) (by decide)⟩,
   ⟨by decide, c7_amended_cursor_discipline.2 [Walkthrough.Elem.gap 5] (by decide)⟩⟩

namespace Walkthrough

theorem process_nil (st : WState) : process [] st = st := rfl

theorem process_cons (e : Elem) (es : List Elem) (st : WState) :
    process (e :: es) st = process es (step st e) := rfl

theorem process_append (a b : List Elem) (st : WState) :
    process (a ++ b) st = process b (process a st) := by
  unfold process
  rw [List.foldl_append]

theorem codeLine_step_no_page (st : WState) (t : List Char)
    (h : ¬ (st.y - 12 < BOTTOM)) :
    step st (Elem.codeLine t)
      = ⟨appendToLast st.pages ⟨LEFT + 8, st.y, t, "F4".data, 47 / 5⟩, st.y - 12⟩ := by
  show code_line st t = _
  unfold code_line lineStep nextPageIfNeeded wtext
  rw [if_neg h]

theorem codeLine_step_page (st : WState) (t : List Char)
    (h : st.y - 12 < BOTTOM) :
    step st (Elem.codeLine t)
      = ⟨appendToLast (st.pages ++ [[]]) ⟨LEFT + 8, TOP, t, "F4".data, 47 / 5⟩, TOP - 12⟩ := by
  show code_line st t = _
  unfold code_line lineStep nextPageIfNeeded wtext
  rw [if_pos h]

theorem gap_step (st : WState) (p : ℚ) :
    step st (Elem.gap p) = ⟨st.pages, st.y - p⟩ := rfl

/-- A run of `n` code lines that all fit on the current page: the page
count is unchanged and the cursor sinks by `12 n`. -/
theorem codeLine_run (t : List Char) :
    ∀ (n : Nat) (st : WState), 1 ≤ st.pages.length →
      BOTTOM + 12 * n ≤ st.y →
      (process (List.replicate n (Elem.codeLine t)) st).pages.length = st.pages.length
      ∧ (process (List.replicate n (Elem.codeLine t)) st).y = st.y - 12 * n := by
  intro n
  induction n with
  | zero =>
    intro st h1 h2
    rw [List.replicate_zero, process_nil]
    norm_num
  | succ n ih =>
    intro st h1 h2
    have hcast : ((n : ℚ) + 1) * 12 = 12 * n + 12 := by ring
    have hny : (BOTTOM : ℚ) + 12 * n ≤ st.y - 12 := by
      push_cast at h2
      linarith [h2, hcast]
    have hnolow : ¬ (st.y - 12 < BOTTOM) := by
      push_cast at h2
      have hn0 : (0 : ℚ) ≤ 12 * n := by positivity
      intro hlt
      linarith
    rw [List.replicate_succ, process_cons, codeLine_step_no_page st t hnolow]
    have hlen : 1 ≤ (appendToLast st.pages ⟨LEFT + 8, st.y, t, "F4".data, 47 / 5⟩).length := by
      rw [appendToLast_length _ h1]
      exact h1
    have := ih ⟨appendToLast st.pages ⟨LEFT + 8, st.y, t, "F4".data, 47 / 5⟩, st.y - 12⟩
      hlen hny
    refine ⟨?_, ?_⟩
    · rw [this.1]
      exact appendToLast_length _ h1
    · rw [this.2]
      push_cast
      ring

end Walkthrough

/-- C5 (counterexample): a single gap also "requires space for exactly 1.4
pages", but gaps never trigger pagination, so the build produces one page,
not two. -/
theorem c5_counterexample :
    Walkthrough.requiredSpace [Walkthrough.Elem.gap (4998 / 5)]
      = (7 / 5) * (Walkthrough.TOP - Walkthrough.BOTTOM)
    ∧ (Walkthrough.process [Walkthrough.Elem.gap (4998 / 5)]
        Walkthrough.initState).pages.length = 1 := by
  refine ⟨by decide, by decide⟩

theorem joinNL_append_last :
    ∀ (xs : List (List Char)) (l : List Char), xs ≠ [] →
      joinNL (xs ++ [l]) = joinNL xs ++ '\n' :: l := by
  intro xs
  induction xs with
  | nil => intro l h; exact absurd rfl h
  | cons x rest ih =>
    intro l _
    cases rest with
    | nil => rfl
    | cons y more =>
      have := ih l (by simp)
      show x ++ '\n' :: joinNL ((y :: more) ++ [l]) = (x ++ '\n' :: joinNL (y :: more)) ++ '\n' :: l
      rw [this]
      simp

/-- The 1.4-page drawn scenario produces exactly two pages. -/
theorem c5content_two_pages :
    (Walkthrough.process c5content Walkthrough.initState).pages.length = 2 := by
  have hsplit : c5content
      = List.replicate 59 (Walkthrough.Elem.codeLine ("x".data))
        ++ (Walkthrough.Elem.codeLine ("x".data)
            :: List.replicate 22 (Walkthrough.Elem.codeLine ("x".data)))
        ++ [Walkthrough.Elem.gap (18 / 5), Walkthrough.Elem.codeLine ("x".data)] := by
    unfold c5content
    rw [show (82 : Nat) = 59 + 23 from rfl, List.replicate_add]
    rw [show (23 : Nat) = 22 + 1 from rfl]
    rw [List.replicate_succ]
    simp
  -- Phase 1: 59 lines fit on page 1.
  set st1 := Walkthrough.process
    (List.replicate 59 (Walkthrough.Elem.codeLine ("x".data))) Walkthrough.initState with hst1
  have h1 := Walkthrough.codeLine_run ("x".data) 59 Walkthrough.initState (by decide)
    (by norm_num [Walkthrough.BOTTOM, Walkthrough.TOP, Walkthrough.initState])
  rw [← hst1] at h1
  have hy1 : st1.y = 52 := by
    rw [h1.2]
    norm_num [Walkthrough.initState, Walkthrough.TOP]
  have hl1 : st1.pages.length = 1 := by
    rw [h1.1]
    decide
  -- Phase 2: the 60th line opens page 2.
  have hstep2 := Walkthrough.codeLine_step_page st1 ("x".data)
    (by rw [hy1]; norm_num [Walkthrough.BOTTOM])
  set st2 : Walkthrough.WState :=
    ⟨Walkthrough.appendToLast (st1.pages ++ [[]])
        ⟨Walkthrough.LEFT + 8, Walkthrough.TOP, "x".data, "F4".data, 47 / 5⟩,
      Walkthrough.TOP - 12⟩ with hst2
  have hl2 : st2.pages.length = 2 := by
    rw [hst2]
    show (Walkthrough.appendToLast (st1.pages ++ [[]]) _).length = 2
    rw [Walkthrough.appendToLast_length _ (by rw [List.length_append]; omega),
      List.length_append, hl1]
    rfl
  have hy2 : st2.y = 748 := by
    rw [hst2]
    show Walkthrough.TOP - 12 = 748
    norm_num [Walkthrough.TOP]
  -- Phase 3: 22 further lines stay on page 2.
  set st3 := Walkthrough.process
    (List.replicate 22 (Walkthrough.Elem.codeLine ("x".data))) st2 with hst3
  have h3 := Walkthrough.codeLine_run ("x".data) 22 st2 (by omega)
    (by rw [hy2]; norm_num [Walkthrough.BOTTOM])
  rw [← hst3] at h3
  have hy3 : st3.y = 484 := by
    rw [h3.2, hy2]
    norm_num
  have hl3 : st3.pages.length = 2 := by
    rw [h3.1, hl2]
  -- Putting the phases together.
  have hchain : Walkthrough.process c5content Walkthrough.initState
      = Walkthrough.process [Walkthrough.Elem.gap (18 / 5),
          Walkthrough.Elem.codeLine ("x".data)]
          (Walkthrough.process (List.replicate 22 (Walkthrough.Elem.codeLine ("x".data)))
            (Walkthrough.step st1 (Walkthrough.Elem.codeLine ("x".data)))) := by
    rw [hsplit, Walkthrough.process_append, Walkthrough.process_append, ← hst1]
    rw [Walkthrough.process_cons (Walkthrough.Elem.codeLine ("x".data))
      (List.replicate 22 (Walkthrough.Elem.codeLine ("x".data))) st1]
  rw [hchain, hstep2, ← hst3]
  have hfinal : Walkthrough.process [Walkthrough.Elem.gap (18 / 5),
      Walkthrough.Elem.codeLine ("x".data)] st3
      = Walkthrough.step (Walkthrough.step st3 (Walkthrough.Elem.gap (18 / 5)))
          (Walkthrough.Elem.codeLine ("x".data)) := by
    rw [Walkthrough.process_cons (Walkthrough.Elem.gap (18 / 5))
        [Walkthrough.Elem.codeLine ("x".data)] st3,
      Walkthrough.process_cons (Walkthrough.Elem.codeLine ("x".data)) []
        (Walkthrough.step st3 (Walkthrough.Elem.gap (18 / 5))),
      Walkthrough.process_nil]
  rw [hfinal, Walkthrough.gap_step]
  rw [Walkthrough.codeLine_step_no_page _ _
    (by
      show ¬ (st3.y - 18 / 5 - 12 < Walkthrough.BOTTOM)
      rw [hy3]
      norm_num [Walkthrough.BOTTOM])]
  show (Walkthrough.appendToLast st3.pages _).length = 2
  rw [Walkthrough.appendToLast_length _ (by omega)]
  exact hl3

/-- The 1.4-page drawn scenario requires exactly 1.4 page-bodies of space. -/
theorem c5content_space :
    Walkthrough.requiredSpace c5content
      = (7 / 5) * (Walkthrough.TOP - Walkthrough.BOTTOM) := by
  unfold c5content Walkthrough.requiredSpace
  rw [List.map_append, List.sum_append, List.map_replicate]
  rw [List.sum_replicate]
  show 82 • Walkthrough.advance (Walkthrough.Elem.codeLine ("x".data))
      + (Walkthrough.advance (Walkthrough.Elem.gap (18 / 5))
        + (Walkthrough.advance (Walkthrough.Elem.codeLine ("x".data)) + 0))
    = (7 / 5) * (Walkthrough.TOP - Walkthrough.BOTTOM)
  show (82 : Nat) • (12 : ℚ) + (18 / 5 + (12 + 0)) = (7 / 5) * (Walkthrough.TOP - Walkthrough.BOTTOM)
  rw [nsmul_eq_mul]
  norm_num [Walkthrough.TOP, Walkthrough.BOTTOM]

/-- Each page/content pair emitted by the page loop: the content object of
the `j`-th page (0-based) carries the stream built from `total`, the page
count fixed before serialization. -/
theorem pagePairs_content (total : Nat) :
    ∀ (pages : List (List DrawCmd)) (idx j : Nat), j < pages.length →
      (Walkthrough.pagePairs total idx pages).get? (2 * j + 1)
        = some (6 + 2 * (idx + j),
            Walkthrough.contentObjBytes (6 + 2 * (idx + j))
              (Walkthrough.pageStream (idx + j) total (pages.getD j []))) := by
  intro pages
  induction pages with
  | nil =>
    intro idx j h
    cases h
  | cons p rest ih =>
    intro idx j h
    cases j with
    | zero => rfl
    | succ j' =>
      have h' : j' < rest.length := by
        rw [List.length_cons] at h
        omega
      show (Walkthrough.pagePairs total (idx + 1) rest).get? (2 * j' + 1)
        = some (6 + 2 * (idx + (j' + 1)),
            Walkthrough.contentObjBytes (6 + 2 * (idx + (j' + 1)))
              (Walkthrough.pageStream (idx + (j' + 1)) total (rest.getD j' [])))
      rw [show idx + (j' + 1) = (idx + 1) + j' by omega]
      exact ih (idx + 1) j' h'

/-- C5: in the auto-paginating builder, content whose elements require
space for exactly 1.4 page-bodies yields at most two pages whenever its
gaps are nonnegative, and the concrete 1.4-page drawn scenario
(`c5content`) yields exactly two; every page's content stream is the body
commands followed by that page's footer; in the assembler each page's
stream is built with `total` equal to the final page count (known only
after the full element sequence is consumed); and for a two-page document
the footers read `Page 1 of 2` and `Page 2 of 2` at the fixed position
`48.00 26.00`. -/
theorem c5_autopaginate_pages_and_footers :
    (∀ es : List Walkthrough.Elem, Walkthrough.gapsNonneg es →
        Walkthrough.requiredSpace es
          = (7 / 5) * (Walkthrough.TOP - Walkthrough.BOTTOM) →
        (Walkthrough.process es Walkthrough.initState).pages.length ≤ 2)
    ∧ Walkthrough.requiredSpace c5content
        = (7 / 5) * (Walkthrough.TOP - Walkthrough.BOTTOM)
    ∧ (Walkthrough.process c5content Walkthrough.initState).pages.length = 2
    ∧ (∀ (idx total : Nat) (cmds : List DrawCmd),
        Walkthrough.pageStream idx total cmds
          = encodeL1 (joinNL (Walkthrough.prolog ++ cmds.map serializeCmd))
            ++ encodeL1 ('\n' :: Walkthrough.footerLine idx total))
    ∧ (∀ (pgs : List (List DrawCmd)) (j : Nat), j < pgs.length →
        (Walkthrough.pagePairs pgs.length 1 pgs).get? (2 * j + 1)
          = some (6 + 2 * (1 + j),
              Walkthrough.contentObjBytes (6 + 2 * (1 + j))
                (Walkthrough.pageStream (1 + j) pgs.length (pgs.getD j []))))
    ∧ Walkthrough.footerLine 1 2
        = "BT /F1 9 Tf 48.00 26.00 Td (Page 1 of 2) Tj ET".data
    ∧ Walkthrough.footerLine 2 2
        = "BT /F1 9 Tf 48.00 26.00 Td (Page 2 of 2) Tj ET".data := by
  refine ⟨?_, c5content_space, c5content_two_pages, ?_, ?_, by decide, by decide⟩
  · intro es hg hr
    have hinv := Walkthrough.process_inv es Walkthrough.initState hg
      Walkthrough.initState_inv.1 Walkthrough.initState_inv.2.1
      Walkthrough.initState_inv.2.2
    have h0 : ((Walkthrough.initState.pages.length : ℚ) - 1) * 688
        + (Walkthrough.TOP - Walkthrough.initState.y) = 0 := by
      norm_num [Walkthrough.initState]
    have hpot := hinv.2.2.2
    rw [h0, hr] at hpot
    have hy := hinv.2.1
    have hval : (7 : ℚ) / 5 * (Walkthrough.TOP - Walkthrough.BOTTOM) = 4998 / 5 := by
      norm_num [Walkthrough.TOP, Walkthrough.BOTTOM]
    rw [hval] at hpot
    by_contra hcon
    have h3n : 3 ≤ (Walkthrough.process es Walkthrough.initState).pages.length := by
      omega
    have h3 : (3 : ℚ) ≤ ((Walkthrough.process es Walkthrough.initState).pages.length : ℚ) := by
      exact_mod_cast h3n
    linarith
  · intro idx total cmds
    unfold Walkthrough.pageStream
    rw [joinNL_append_last _ _ (by simp [Walkthrough.prolog])]
    simp only [encodeL1]
    rw [List.map_append]
  · intro pgs j h
    exact pagePairs_content pgs.length pgs 1 j h

/-- Witness: the 1.4-page scenario has nonnegative gaps, so the general
two-page bound applies to it. -/
theorem c5_autopaginate_pages_and_footers_witness :
    Walkthrough.gapsNonneg c5content
    ∧ (Walkthrough.process c5content Walkthrough.initState).pages.length ≤ 2 :=
  ⟨by decide, c5_autopaginate_pages_and_footers.1 c5content (by decide)
    c5_autopaginate_pages_and_footers.2.1⟩

/-- Any byte string of the form `encodeL1 (natStr k ++ u)` with `u`
starting in `" 0 obj"` begins with the id token of object `k`. -/
theorem objHead_take (k : Nat) (u : List Char) (rest : List Nat)
    (hu : u.take 6 = " 0 obj".data) (h6 : 6 ≤ u.length) :
    (encodeL1 (natStr k ++ u) ++ rest).take (idTok k).length = idTok k := by
  unfold idTok encodeL1
  rw [List.map_append, List.map_append]
  rw [List.length_append, List.length_map, List.length_map]
  rw [show (" 0 obj".data : List Char).length = 6 from rfl]
  rw [show (natStr k).length = (List.map encodeByte (natStr k)).length
    from (List.length_map _ _).symm]
  rw [List.append_assoc, List.take_append]
  congr 1
  rw [List.take_append_of_le_length (by rw [List.length_map]; exact h6)]
  rw [← List.map_take, hu]

theorem offsetsFrom_len :
    ∀ (objs : List (List Nat)) (pos : Nat),
      (Summary.offsetsFrom pos objs).length = objs.length := by
  intro objs
  induction objs with
  | nil => intro pos; rfl
  | cons o os ih =>
    intro pos
    show (pos :: Summary.offsetsFrom (pos + o.length) os).length = os.length + 1
    rw [List.length_cons, ih]

/-- Dropping an emitted document at the offset recorded for the `j`-th
object lands exactly at the start of that object's bytes. -/
theorem offsetsFrom_drop :
    ∀ (objs : List (List Nat)) (pre suf : List Nat) (j : Nat), j < objs.length →
      ∃ rest, (pre ++ (objs.flatten ++ suf)).drop
          ((Summary.offsetsFrom pre.length objs).getD j 0)
        = objs.getD j [] ++ rest := by
  intro objs
  induction objs with
  | nil =>
    intro pre suf j h
    cases h
  | cons o os ih =>
    intro pre suf j hj
    cases j with
    | zero =>
      refine ⟨os.flatten ++ suf, ?_⟩
      show (pre ++ ((o :: os).flatten ++ suf)).drop pre.length = o ++ (os.flatten ++ suf)
      rw [List.flatten_cons, List.drop_left, List.append_assoc]
    | succ j' =>
      have hj' : j' < os.length := by
        rw [List.length_cons] at hj
        omega
      obtain ⟨rest, hr⟩ := ih (pre ++ o) suf j' hj'
      rw [List.length_append] at hr
      refine ⟨rest, ?_⟩
      show (pre ++ ((o :: os).flatten ++ suf)).drop
          ((Summary.offsetsFrom (pre.length + o.length) os).getD j' 0)
        = os.getD j' [] ++ rest
      rw [List.flatten_cons]
      rw [show pre ++ ((o ++ os.flatten) ++ suf) = (pre ++ o) ++ (os.flatten ++ suf) by simp]
      exact hr

theorem emitObjs_len (lk : Nat → Option (List Nat)) :
    ∀ (ks : List Nat) (pos : Nat),
      ((Walkthrough.emitObjs lk pos ks).2).length = ks.length := by
  intro ks
  induction ks with
  | nil => intro pos; rfl
  | cons k ks ih =>
    intro pos
    show ((Walkthrough.emitObjs lk pos (k :: ks)).2).length = ks.length + 1
    unfold Walkthrough.emitObjs
    cases hk : lk k with
    | none =>
      dsimp only
      rw [List.length_cons, ih]
    | some o =>
      dsimp only
      rw [List.length_cons, ih]

theorem emitObjs_cons_none (lk : Nat → Option (List Nat)) (pos k : Nat)
    (ks : List Nat) (hk : lk k = none) :
    Walkthrough.emitObjs lk pos (k :: ks)
      = ((Walkthrough.emitObjs lk pos ks).1,
          0 :: (Walkthrough.emitObjs lk pos ks).2) := by
  simp only [Walkthrough.emitObjs]
  rw [hk]

theorem emitObjs_cons_some (lk : Nat → Option (List Nat)) (pos k : Nat)
    (ks : List Nat) (ob : List Nat) (hk : lk k = some ob) :
    Walkthrough.emitObjs lk pos (k :: ks)
      = (ob ++ (Walkthrough.emitObjs lk (pos + ob.length) ks).1,
          pos :: (Walkthrough.emitObjs lk (pos + ob.length) ks).2) := by
  simp only [Walkthrough.emitObjs]
  rw [hk]

/-- Dropping the serialized byte stream at the offset `emitObjs` records
for the `j`-th traversed id lands exactly at the start of that object's
bytes, whenever the id is present in the dict. -/
theorem emitObjs_drop (lk : Nat → Option (List Nat)) :
    ∀ (ks : List Nat) (pre suf : List Nat) (j : Nat), j < ks.length →
      ∀ ob, lk (ks.getD j 0) = some ob →
      ∃ rest, (pre ++ ((Walkthrough.emitObjs lk pre.length ks).1 ++ suf)).drop
          (((Walkthrough.emitObjs lk pre.length ks).2).getD j 0) = ob ++ rest := by
  intro ks
  induction ks with
  | nil =>
    intro pre suf j h
    cases h
  | cons k ks ih =>
    intro pre suf j hj ob hob
    cases hk : lk k with
    | none =>
      cases j with
      | zero =>
        have hob0 : lk k = some ob := hob
        rw [hk] at hob0
        exact Option.noConfusion hob0
      | succ j' =>
        have hj' : j' < ks.length := by
          rw [List.length_cons] at hj
          omega
        have hob' : lk (ks.getD j' 0) = some ob := hob
        obtain ⟨rest, hr⟩ := ih pre suf j' hj' ob hob'
        refine ⟨rest, ?_⟩
        rw [emitObjs_cons_none lk pre.length k ks hk]
        dsimp only
        rw [List.getD_cons_succ]
        exact hr
    | some o =>
      cases j with
      | zero =>
        have hob0 : lk k = some ob := hob
        rw [hk] at hob0
        have ho : o = ob := Option.some.inj hob0
        subst ho
        refine ⟨(Walkthrough.emitObjs lk (pre.length + o.length) ks).1 ++ suf, ?_⟩
        rw [emitObjs_cons_some lk pre.length k ks o hk]
        dsimp only
        rw [List.getD_cons_zero]
        rw [show pre ++ ((o ++ (Walkthrough.emitObjs lk (pre.length + o.length) ks).1) ++ suf)
          = pre ++ (o ++ ((Walkthrough.emitObjs lk (pre.length + o.length) ks).1 ++ suf)) by simp]
        rw [List.drop_left]
      | succ j' =>
        have hj' : j' < ks.length := by
          rw [List.length_cons] at hj
          omega
        have hob' : lk (ks.getD j' 0) = some ob := hob
        obtain ⟨rest, hr⟩ := ih (pre ++ o) suf j' hj' ob hob'
        rw [List.length_append] at hr
        refine ⟨rest, ?_⟩
        rw [emitObjs_cons_some lk pre.length k ks o hk]
        dsimp only
        rw [List.getD_cons_succ]
        rw [show pre ++ ((o ++ (Walkthrough.emitObjs lk (pre.length + o.length) ks).1) ++ suf)
          = (pre ++ o) ++ ((Walkthrough.emitObjs lk (pre.length + o.length) ks).1 ++ suf) by simp]
        exact hr

theorem lookupObj_append (k : Nat) :
    ∀ (xs ys : List (Nat × List Nat)),
      Walkthrough.lookupObj k (xs ++ ys)
        = match Walkthrough.lookupObj k xs with
          | some v => some v
          | none => Walkthrough.lookupObj k ys := by
  intro xs ys
  induction xs with
  | nil => rfl
  | cons p rest ih =>
    rcases p with ⟨k', v⟩
    show (if k' = k then some v else Walkthrough.lookupObj k (rest ++ ys)) = _
    by_cases h : k' = k
    · rw [if_pos h]
      rw [show Walkthrough.lookupObj k ((k', v) :: rest)
        = if k' = k then some v else Walkthrough.lookupObj k rest from rfl, if_pos h]
    · rw [if_neg h]
      rw [show Walkthrough.lookupObj k ((k', v) :: rest)
        = if k' = k then some v else Walkthrough.lookupObj k rest from rfl, if_neg h]
      exact ih

theorem lookupObj_pagePairs_none (total : Nat) :
    ∀ (ps : List (List DrawCmd)) (idx k : Nat), k < 5 + 2 * idx →
      Walkthrough.lookupObj k (Walkthrough.pagePairs total idx ps) = none := by
  intro ps
  induction ps with
  | nil => intro idx k h; rfl
  | cons p rest ih =>
    intro idx k h
    show (if 5 + 2 * idx = k
        then some (Walkthrough.pageObjBytes (5 + 2 * idx) (6 + 2 * idx))
        else if 6 + 2 * idx = k
          then some (Walkthrough.contentObjBytes (6 + 2 * idx)
            (Walkthrough.pageStream idx total p))
          else Walkthrough.lookupObj k (Walkthrough.pagePairs total (idx + 1) rest)) = none
    rw [if_neg (by omega), if_neg (by omega)]
    exact ih (idx + 1) k (by omega)

/-- In the page loop's dict entries, the keys `5 + 2 i` and `6 + 2 i`
resolve to the `i`-th page's page object and content object. -/
theorem lookupObj_pagePairs_page (total : Nat) :
    ∀ (ps : List (List DrawCmd)) (idx i : Nat), i < ps.length →
      Walkthrough.lookupObj (5 + 2 * (idx + i)) (Walkthrough.pagePairs total idx ps)
        = some (Walkthrough.pageObjBytes (5 + 2 * (idx + i)) (6 + 2 * (idx + i)))
      ∧ Walkthrough.lookupObj (6 + 2 * (idx + i)) (Walkthrough.pagePairs total idx ps)
        = some (Walkthrough.contentObjBytes (6 + 2 * (idx + i))
            (Walkthrough.pageStream (idx + i) total (ps.getD i []))) := by
  intro ps
  induction ps with
  | nil => intro idx i h; cases h
  | cons p rest ih =>
    intro idx i h
    cases i with
    | zero =>
      constructor
      · show (if 5 + 2 * idx = 5 + 2 * (idx + 0)
            then some (Walkthrough.pageObjBytes (5 + 2 * idx) (6 + 2 * idx))
            else if 6 + 2 * idx = 5 + 2 * (idx + 0)
              then some (Walkthrough.contentObjBytes (6 + 2 * idx)
                (Walkthrough.pageStream idx total p))
              else Walkthrough.lookupObj (5 + 2 * (idx + 0))
                (Walkthrough.pagePairs total (idx + 1) rest)) = _
        rw [if_pos (by omega)]
        rfl
      · show (if 5 + 2 * idx = 6 + 2 * (idx + 0)
            then some (Walkthrough.pageObjBytes (5 + 2 * idx) (6 + 2 * idx))
            else if 6 + 2 * idx = 6 + 2 * (idx + 0)
              then some (Walkthrough.contentObjBytes (6 + 2 * idx)
                (Walkthrough.pageStream idx total p))
              else Walkthrough.lookupObj (6 + 2 * (idx + 0))
                (Walkthrough.pagePairs total (idx + 1) rest)) = _
        rw [if_neg (by omega), if_pos (by omega)]
        rfl
    | succ i' =>
      have h' : i' < rest.length := by
        rw [List.length_cons] at h
        omega
      have := ih (idx + 1) i' h'
      constructor
      · show (if 5 + 2 * idx = 5 + 2 * (idx + (i' + 1))
            then some (Walkthrough.pageObjBytes (5 + 2 * idx) (6 + 2 * idx))
            else if 6 + 2 * idx = 5 + 2 * (idx + (i' + 1))
              then some (Walkthrough.contentObjBytes (6 + 2 * idx)
                (Walkthrough.pageStream idx total p))
              else Walkthrough.lookupObj (5 + 2 * (idx + (i' + 1)))
                (Walkthrough.pagePairs total (idx + 1) rest)) = _
        rw [if_neg (by omega), if_neg (by omega)]
        rw [show idx + (i' + 1) = (idx + 1) + i' by omega]
        exact this.1
      · show (if 5 + 2 * idx = 6 + 2 * (idx + (i' + 1))
            then some (Walkthrough.pageObjBytes (5 + 2 * idx) (6 + 2 * idx))
            else if 6 + 2 * idx = 6 + 2 * (idx + (i' + 1))
              then some (Walkthrough.contentObjBytes (6 + 2 * idx)
                (Walkthrough.pageStream idx total p))
              else Walkthrough.lookupObj (6 + 2 * (idx + (i' + 1)))
                (Walkthrough.pagePairs total (idx + 1) rest)) = _
        rw [if_neg (by omega), if_neg (by omega)]
        rw [show idx + (i' + 1) = (idx + 1) + i' by omega]
        exact this.2

theorem pagePairs_fold (total : Nat) :
    ∀ (ps : List (List DrawCmd)) (idx b : Nat),
      ((Walkthrough.pagePairs total idx ps).map Prod.fst).foldr max b
        = if ps.length = 0 then b else max (6 + 2 * (idx + ps.length - 1)) b := by
  intro ps
  induction ps with
  | nil => intro idx b; rfl
  | cons p rest ih =>
    intro idx b
    show ((5 + 2 * idx) :: (6 + 2 * idx)
        :: (Walkthrough.pagePairs total (idx + 1) rest).map Prod.fst).foldr max b = _
    rw [List.foldr_cons, List.foldr_cons, ih (idx + 1) b]
    rw [if_neg (show ¬ ((p :: rest).length = 0) by simp)]
    by_cases hr : rest.length = 0
    · rw [if_pos hr, List.length_cons, hr]
      omega
    · rw [if_neg hr, List.length_cons]
      omega

/-- The largest key of the object dict is `6 + 2 * pages`: the last
content object id. -/
theorem maxKey_objList (pgs : List (List DrawCmd)) (hp : 1 ≤ pgs.length) :
    Walkthrough.maxKey (Walkthrough.objList pgs) = 6 + 2 * pgs.length := by
  unfold Walkthrough.maxKey Walkthrough.objList
  simp only [List.map_cons, List.map_append, List.foldr_cons, List.foldr_append,
    List.map_nil, List.foldr_nil]
  rw [pagePairs_fold]
  rw [if_neg (by omega)]
  omega

theorem pageObjBytes_head (p c : Nat) (rest : List Nat) :
    (Walkthrough.pageObjBytes p c ++ rest).take (idTok p).length = idTok p := by
  unfold Walkthrough.pageObjBytes
  simp only [List.append_assoc]
  apply objHead_take
  · rw [List.take_append_of_le_length (by decide)]
    decide
  · rw [List.length_append]
    exact le_trans (by decide) (Nat.le_add_right _ _)

theorem contentObjBytes_head (c : Nat) (s : List Nat) (rest : List Nat) :
    (Walkthrough.contentObjBytes c s ++ rest).take (idTok c).length = idTok c := by
  unfold Walkthrough.contentObjBytes
  simp only [List.append_assoc]
  apply objHead_take
  · rw [List.take_append_of_le_length (by decide)]
    decide
  · rw [List.length_append]
    exact le_trans (by decide) (Nat.le_add_right _ _)

theorem pageTreeBytes_head (pgs : List (List DrawCmd)) (rest : List Nat) :
    (Walkthrough.pageTreeBytes pgs ++ rest).take (idTok 2).length = idTok 2 := by
  unfold Walkthrough.pageTreeBytes
  rw [show ("2 0 obj << /Type /Pages /Count ".data : List Char)
    = natStr 2 ++ " 0 obj << /Type /Pages /Count ".data from by decide]
  simp only [List.append_assoc]
  apply objHead_take
  · rw [List.take_append_of_le_length (by decide)]
    decide
  · rw [List.length_append]
    exact le_trans (by decide) (Nat.le_add_right _ _)

theorem obj7_head (cmds : List DrawCmd) (rest : List Nat) :
    (Summary.obj7 cmds ++ rest).take (idTok 7).length = idTok 7 := by
  unfold Summary.obj7
  rw [show ("7 0 obj << /Length ".data : List Char)
    = natStr 7 ++ " 0 obj << /Length ".data from by decide]
  simp only [List.append_assoc]
  apply objHead_take
  · rw [List.take_append_of_le_length (by decide)]
    decide
  · rw [List.length_append]
    exact le_trans (by decide) (Nat.le_add_right _ _)

/-- Dropping the full serialized document at the offset recorded for the
`j`-th id (object id `1 + j`) lands at the start of that object's bytes. -/
theorem serializeObjects_offset (objs : List (Nat × List Nat)) (j : Nat)
    (hj : j < Walkthrough.maxKey objs) (ob : List Nat)
    (hlk : Walkthrough.lookupObj (1 + j) objs = some ob) :
    ∃ rest, (Walkthrough.serializeObjects objs).drop
        ((Walkthrough.emitObjs (fun k => Walkthrough.lookupObj k objs)
            Walkthrough.header.length
            (List.range' 1 (Walkthrough.maxKey objs))).2.getD j 0)
      = ob ++ rest := by
  have hj' : j < (List.range' 1 (Walkthrough.maxKey objs)).length := by
    simpa using hj
  have hob : Walkthrough.lookupObj
      ((List.range' 1 (Walkthrough.maxKey objs)).getD j 0) objs = some ob := by
    rw [List.getD_eq_getElem _ _ hj']
    rw [List.getElem_range', Nat.one_mul]
    exact hlk
  obtain ⟨rest, hr⟩ := emitObjs_drop (fun k => Walkthrough.lookupObj k objs)
    (List.range' 1 (Walkthrough.maxKey objs)) Walkthrough.header _ j hj' ob hob
  refine ⟨rest, ?_⟩
  unfold Walkthrough.serializeObjects
  dsimp only
  simp only [List.append_assoc]
  exact hr

/-- Every id `1..6+2P` is present in the object dict, and its bytes begin
with that id's token. -/
theorem lookupObj_objList (pgs : List (List DrawCmd)) (hp : 1 ≤ pgs.length)
    (k : Nat) (h1 : 1 ≤ k) (h2 : k ≤ 6 + 2 * pgs.length) :
    ∃ ob, Walkthrough.lookupObj k (Walkthrough.objList pgs) = some ob
      ∧ ∀ rest, (ob ++ rest).take (idTok k).length = idTok k := by
  by_cases hk1 : k = 1
  · subst hk1
    refine ⟨Walkthrough.objCatalog, rfl, ?_⟩
    intro rest
    rw [List.take_append_of_le_length (by decide)]
    decide
  by_cases hk2 : k = 2
  · subst hk2
    refine ⟨Walkthrough.pageTreeBytes pgs, ?_, ?_⟩
    · show Walkthrough.lookupObj 2 (Walkthrough.pagePairs pgs.length 1 pgs
        ++ [(2, Walkthrough.pageTreeBytes pgs)]) = _
      rw [lookupObj_append]
      rw [lookupObj_pagePairs_none pgs.length pgs 1 2 (by omega)]
      rfl
    · intro rest
      exact pageTreeBytes_head pgs rest
  by_cases hk3 : k = 3
  · subst hk3
    refine ⟨Walkthrough.objFont3, rfl, ?_⟩
    intro rest
    rw [List.take_append_of_le_length (by decide)]
    decide
  by_cases hk4 : k = 4
  · subst hk4
    refine ⟨Walkthrough.objFont4, rfl, ?_⟩
    intro rest
    rw [List.take_append_of_le_length (by decide)]
    decide
  by_cases hk5 : k = 5
  · subst hk5
    refine ⟨Walkthrough.objFont5, rfl, ?_⟩
    intro rest
    rw [List.take_append_of_le_length (by decide)]
    decide
  by_cases hk6 : k = 6
  · subst hk6
    refine ⟨Walkthrough.objFont6, rfl, ?_⟩
    intro rest
    rw [List.take_append_of_le_length (by decide)]
    decide
  have h7 : 7 ≤ k := by omega
  rcases Nat.even_or_odd k with he | ho
  · obtain ⟨m, hm⟩ := he
    have hi : k = 6 + 2 * (m - 3) := by omega
    have hi1 : 1 ≤ m - 3 := by omega
    have hiL : m - 3 ≤ pgs.length := by omega
    refine ⟨Walkthrough.contentObjBytes (6 + 2 * (m - 3))
        (Walkthrough.pageStream (m - 3) pgs.length (pgs.getD (m - 3 - 1) [])), ?_, ?_⟩
    · show (if 1 = k then some Walkthrough.objCatalog
        else if 3 = k then some Walkthrough.objFont3
        else if 4 = k then some Walkthrough.objFont4
        else if 5 = k then some Walkthrough.objFont5
        else if 6 = k then some Walkthrough.objFont6
        else Walkthrough.lookupObj k (Walkthrough.pagePairs pgs.length 1 pgs
          ++ [(2, Walkthrough.pageTreeBytes pgs)])) = _
      rw [if_neg (by omega), if_neg (by omega), if_neg (by omega), if_neg (by omega),
        if_neg (by omega)]
      rw [lookupObj_append]
      have hpp := (lookupObj_pagePairs_page pgs.length pgs 1 (m - 3 - 1) (by omega)).2
      rw [show (1 : Nat) + (m - 3 - 1) = m - 3 from by omega] at hpp
      rw [show k = 6 + 2 * (m - 3) from hi]
      rw [hpp]
    · intro rest
      rw [show k = 6 + 2 * (m - 3) from hi]
      exact contentObjBytes_head _ _ rest
  · obtain ⟨m, hm⟩ := ho
    have hi : k = 5 + 2 * (m - 2) := by omega
    have hi1 : 1 ≤ m - 2 := by omega
    have hiL : m - 2 ≤ pgs.length := by omega
    refine ⟨Walkthrough.pageObjBytes (5 + 2 * (m - 2)) (6 + 2 * (m - 2)), ?_, ?_⟩
    · show (if 1 = k then some Walkthrough.objCatalog
        else if 3 = k then some Walkthrough.objFont3
        else if 4 = k then some Walkthrough.objFont4
        else if 5 = k then some Walkthrough.objFont5
        else if 6 = k then some Walkthrough.objFont6
        else Walkthrough.lookupObj k (Walkthrough.pagePairs pgs.length 1 pgs
          ++ [(2, Walkthrough.pageTreeBytes pgs)])) = _
      rw [if_neg (by omega), if_neg (by omega), if_neg (by omega), if_neg (by omega),
        if_neg (by omega)]
      rw [lookupObj_append]
      have hpp := (lookupObj_pagePairs_page pgs.length pgs 1 (m - 2 - 1) (by omega)).1
      rw [show (1 : Nat) + (m - 2 - 1) = m - 2 from by omega] at hpp
      rw [show k = 5 + 2 * (m - 2) from hi]
      rw [hpp]
    · intro rest
      rw [show k = 5 + 2 * (m - 2) from hi]
      exact pageObjBytes_head _ _ rest

theorem summary_drop (cmds : List DrawCmd) (j : Nat) (hj : j < 7) :
    ∃ rest, (Summary.build cmds).drop
        ((Summary.offsetsFrom Summary.header.length (Summary.objects cmds)).getD j 0)
      = (Summary.objects cmds).getD j [] ++ rest := by
  have hlen : (Summary.objects cmds).length = 7 := rfl
  obtain ⟨rest, hr⟩ := offsetsFrom_drop (Summary.objects cmds) Summary.header
    (Summary.xrefBlock cmds ++ Summary.trailerBytes cmds) j (by rw [hlen]; exact hj)
  refine ⟨rest, ?_⟩
  rw [show Summary.build cmds
    = Summary.header ++ ((Summary.objects cmds).flatten
        ++ (Summary.xrefBlock cmds ++ Summary.trailerBytes cmds)) from by
    unfold Summary.build Summary.bodyBytes
    simp [List.append_assoc]]
  exact hr

/-- C1: offset integrity of both assemblers.  Strict builder: the document
has 7 objects, the cross-reference table has `7 + 1` entries (id 0 plus one
per object, and the trailer's `/Size` is written from that same count), and
seeking to the offset recorded for id `k` lands on the token `k 0 obj`.
Paginating builder: the object ids are `1..6+2P` for `P` pages (`/Size` is
written as the largest id plus one), one offset is recorded per id, and
seeking to the offset recorded for id `k` lands on the token `k 0 obj`. -/
theorem c1_offset_integrity :
    (∀ cmds : List DrawCmd,
        (Summary.objects cmds).length = 7
        ∧ (Summary.xref_offsets cmds).length = 7 + 1
        ∧ ∀ k, 1 ≤ k → k ≤ 7 →
            ((Summary.build cmds).drop ((Summary.xref_offsets cmds).getD k 0)).take
                (idTok k).length = idTok k)
    ∧ (∀ pgs : List (List DrawCmd), 1 ≤ pgs.length →
        Walkthrough.maxKey (Walkthrough.objList pgs) = 6 + 2 * pgs.length
        ∧ (Walkthrough.xrefOffsets pgs).length = 6 + 2 * pgs.length
        ∧ ∀ k, 1 ≤ k → k ≤ 6 + 2 * pgs.length →
            ((Walkthrough.build pgs).drop
                ((Walkthrough.xrefOffsets pgs).getD (k - 1) 0)).take
                (idTok k).length = idTok k) := by
  constructor
  · intro cmds
    refine ⟨rfl, ?_, ?_⟩
    · show (0 :: Summary.offsetsFrom Summary.header.length (Summary.objects cmds)).length
        = 7 + 1
      rw [List.length_cons, offsetsFrom_len]
      rfl
    · intro k hk1 hk7
      interval_cases k
      · obtain ⟨rest, hr⟩ := summary_drop cmds 0 (by decide)
        show ((Summary.build cmds).drop
            ((Summary.offsetsFrom Summary.header.length (Summary.objects cmds)).getD 0 0)).take
            (idTok 1).length = idTok 1
        rw [hr]
        show (Summary.obj1 ++ rest).take (idTok 1).length = idTok 1
        rw [List.take_append_of_le_length (by decide)]
        decide
      · obtain ⟨rest, hr⟩ := summary_drop cmds 1 (by decide)
        show ((Summary.build cmds).drop
            ((Summary.offsetsFrom Summary.header.length (Summary.objects cmds)).getD 1 0)).take
            (idTok 2).length = idTok 2
        rw [hr]
        show (Summary.obj2 ++ rest).take (idTok 2).length = idTok 2
        rw [List.take_append_of_le_length (by decide)]
        decide
      · obtain ⟨rest, hr⟩ := summary_drop cmds 2 (by decide)
        show ((Summary.build cmds).drop
            ((Summary.offsetsFrom Summary.header.length (Summary.objects cmds)).getD 2 0)).take
            (idTok 3).length = idTok 3
        rw [hr]
        show (Summary.obj3 ++ rest).take (idTok 3).length = idTok 3
        rw [List.take_append_of_le_length (by decide)]
        decide
      · obtain ⟨rest, hr⟩ := summary_drop cmds 3 (by decide)
        show ((Summary.build cmds).drop
            ((Summary.offsetsFrom Summary.header.length (Summary.objects cmds)).getD 3 0)).take
            (idTok 4).length = idTok 4
        rw [hr]
        show (Summary.obj4 ++ rest).take (idTok 4).length = idTok 4
        rw [List.take_append_of_le_length (by decide)]
        decide
      · obtain ⟨rest, hr⟩ := summary_drop cmds 4 (by decide)
        show ((Summary.build cmds).drop
            ((Summary.offsetsFrom Summary.header.length (Summary.objects cmds)).getD 4 0)).take
            (idTok 5).length = idTok 5
        rw [hr]
        show (Summary.obj5 ++ rest).take (idTok 5).length = idTok 5
        rw [List.take_append_of_le_length (by decide)]
        decide
      · obtain ⟨rest, hr⟩ := summary_drop cmds 5 (by decide)
        show ((Summary.build cmds).drop
            ((Summary.offsetsFrom Summary.header.length (Summary.objects cmds)).getD 5 0)).take
            (idTok 6).length = idTok 6
        rw [hr]
        show (Summary.obj6 ++ rest).take (idTok 6).length = idTok 6
        rw [List.take_append_of_le_length (by decide)]
        decide
      · obtain ⟨rest, hr⟩ := summary_drop cmds 6 (by decide)
        show ((Summary.build cmds).drop
            ((Summary.offsetsFrom Summary.header.length (Summary.objects cmds)).getD 6 0)).take
            (idTok 7).length = idTok 7
        rw [hr]
        show (Summary.obj7 cmds ++ rest).take (idTok 7).length = idTok 7
        exact obj7_head cmds rest
  · intro pgs hp
    have hmax := maxKey_objList pgs hp
    refine ⟨hmax, ?_, ?_⟩
    · show ((Walkthrough.emitObjs (fun k => Walkthrough.lookupObj k (Walkthrough.objList pgs))
          Walkthrough.header.length
          (List.range' 1 (Walkthrough.maxKey (Walkthrough.objList pgs)))).2).length
        = 6 + 2 * pgs.length
      rw [emitObjs_len]
      rw [show (List.range' 1 (Walkthrough.maxKey (Walkthrough.objList pgs))).length
        = Walkthrough.maxKey (Walkthrough.objList pgs) from by simp]
      exact hmax
    · intro k hk1 hk2
      obtain ⟨ob, hlk, htake⟩ := lookupObj_objList pgs hp k hk1 hk2
      obtain ⟨rest, hr⟩ := serializeObjects_offset (Walkthrough.objList pgs) (k - 1)
        (by rw [hmax]; omega) ob
        (by rw [show (1 : Nat) + (k - 1) = k from by omega]; exact hlk)
      show ((Walkthrough.serializeObjects (Walkthrough.objList pgs)).drop
          ((Walkthrough.emitObjs (fun k' => Walkthrough.lookupObj k' (Walkthrough.objList pgs))
              Walkthrough.header.length
              (List.range' 1 (Walkthrough.maxKey (Walkthrough.objList pgs)))).2.getD
            (k - 1) 0)).take (idTok k).length = idTok k
      rw [hr]
      exact htake rest

/-- Witness: the one-page document with one empty page satisfies the
paginating builder's offset-integrity statement at id 1. -/
theorem c1_offset_integrity_witness :
    1 ≤ ([[]] : List (List DrawCmd)).length
    ∧ (1 ≤ 1 ∧ 1 ≤ 6 + 2 * ([[]] : List (List DrawCmd)).length)
    ∧ ((Walkthrough.build [[]]).drop
        ((Walkthrough.xrefOffsets [[]]).getD (1 - 1) 0)).take
        (idTok 1).length = idTok 1 :=
  ⟨by decide, ⟨by decide, by decide⟩,
    ((c1_offset_integrity.2 [[]] (by decide)).2.2 1 (by decide) (by decide))⟩

/-- C8: a Draw Command stores the raw semantic text unchanged — the
emitters append the argument text as-is (`wtext`, and e.g. `title` in the
strict builder) — and `pdf_escape` is applied exactly once, inside
`serializeCmd` at serialization time: the emitted parenthesized payload is
the escape of the stored text, unescaping it recovers the stored text
exactly (so nothing is double-escaped), and it contains no unescaped
parenthesis (so nothing is left unescaped). -/
theorem c8_escape_exactly_once : ∀ c : DrawCmd,
    (serializeCmd c
      = "BT /".data ++ c.font ++ " ".data ++ fmt2f c.size ++ " Tf ".data
        ++ fmt2f c.x ++ " ".data ++ fmt2f c.y ++ " Td (".data
        ++ pdf_escape c.text ++ ") Tj ET".data
    ∧ pdf_unescape (pdf_escape c.text) = c.text
    ∧ hasUnescapedParen (pdf_escape c.text) = false)
    ∧ (∀ (st : Walkthrough.WState) (x : ℚ) (t font : List Char) (sz : ℚ),
        Walkthrough.wtext st x t font sz
          = ⟨Walkthrough.appendToLast st.pages ⟨x, st.y, t, font, sz⟩, st.y⟩)
    ∧ (∀ (st : Summary.LayoutState) (t : List Char),
        Summary.title st t
          = ⟨st.y - 22, st.commands ++ [⟨Summary.LEFT, st.y, t, "F2".data, 18⟩]⟩) := by
  intro c
  refine ⟨⟨rfl, ?_, ?_⟩, fun _ _ _ _ _ => rfl, fun _ _ => rfl⟩
  · rw [pdf_escape_eq_flatMap]
    exact pdf_unescape_flatMap c.text
  · rw [pdf_escape_eq_flatMap]
    exact hasUnescapedParen_flatMap c.text

theorem lookupObj_eq_none (k : Nat) :
    ∀ (objs : List (Nat × List Nat)),
      Walkthrough.lookupObj k objs = none ↔ ∀ p ∈ objs, p.1 ≠ k := by
  intro objs
  induction objs with
  | nil =>
    constructor
    · intro _ p hp
      cases hp
    · intro _
      rfl
  | cons p rest ih =>
    rcases p with ⟨k', v⟩
    show (if k' = k then some v else Walkthrough.lookupObj k rest) = none ↔ _
    by_cases h : k' = k
    · rw [if_pos h]
      constructor
      · intro hc
        exact Option.noConfusion hc
      · intro hall
        exact absurd h (hall (k', v) (List.mem_cons_self _ _))
    · rw [if_neg h, ih]
      constructor
      · intro hall q hq
        rcases List.mem_cons.mp hq with he | hq'
        · rw [he]
          exact h
        · exact hall q hq'
      · intro hall q hq
        exact hall q (List.mem_cons_of_mem _ hq)

theorem lookupObj_eq_some (k : Nat) (v : List Nat) :
    ∀ (objs : List (Nat × List Nat)), (objs.map Prod.fst).Nodup →
      (Walkthrough.lookupObj k objs = some v ↔ (k, v) ∈ objs) := by
  intro objs
  induction objs with
  | nil =>
    intro _
    constructor
    · intro hc
      exact Option.noConfusion hc
    · intro hc
      cases hc
  | cons p rest ih =>
    intro hnd
    rcases p with ⟨k', w⟩
    rw [List.map_cons, List.nodup_cons] at hnd
    show (if k' = k then some w else Walkthrough.lookupObj k rest) = some v ↔ _
    by_cases h : k' = k
    · subst h
      rw [if_pos rfl]
      constructor
      · intro hs
        rw [Option.some.inj hs]
        exact List.mem_cons_self _ _
      · intro hm
        rcases List.mem_cons.mp hm with he | hm'
        · rw [show v = w from congrArg Prod.snd he]
        · exact absurd (List.mem_map_of_mem Prod.fst hm') (by simpa using hnd.1)
    · rw [if_neg h, ih hnd.2]
      constructor
      · exact fun hm => List.mem_cons_of_mem _ hm
      · intro hm
        rcases List.mem_cons.mp hm with he | hm'
        · exact absurd (congrArg Prod.fst he).symm h
        · exact hm'

theorem lookupObj_perm {o₁ o₂ : List (Nat × List Nat)} (hp : o₁.Perm o₂)
    (hnd : (o₁.map Prod.fst).Nodup) (k : Nat) :
    Walkthrough.lookupObj k o₁ = Walkthrough.lookupObj k o₂ := by
  have hnd₂ : (o₂.map Prod.fst).Nodup := ((hp.map Prod.fst).nodup_iff).mp hnd
  cases h : Walkthrough.lookupObj k o₂ with
  | none =>
    rw [lookupObj_eq_none]
    exact fun p hp' => (lookupObj_eq_none k o₂).mp h p (hp.subset hp')
  | some v =>
    exact (lookupObj_eq_some k v o₁ hnd).mpr
      (hp.mem_iff.mpr ((lookupObj_eq_some k v o₂ hnd₂).mp h))

/-- The serialized bytes depend only on the key→bytes mapping of the
object dict, not on its insertion order. -/
theorem serializeObjects_perm (o₁ o₂ : List (Nat × List Nat)) (hp : o₁.Perm o₂)
    (hnd : (o₁.map Prod.fst).Nodup) :
    Walkthrough.serializeObjects o₁ = Walkthrough.serializeObjects o₂ := by
  have hmax : Walkthrough.maxKey o₁ = Walkthrough.maxKey o₂ := by
    unfold Walkthrough.maxKey
    exact @List.Perm.foldr_eq _ _ max _ _ ⟨fun a b c => by omega⟩ (hp.map Prod.fst) 0
  have hlk : (fun k => Walkthrough.lookupObj k o₁)
      = (fun k => Walkthrough.lookupObj k o₂) :=
    funext (fun k => lookupObj_perm hp hnd k)
  unfold Walkthrough.serializeObjects
  dsimp only
  rw [hmax, hlk]

theorem pagePairs_keys_lb (total : Nat) :
    ∀ (ps : List (List DrawCmd)) (idx k : Nat),
      k ∈ (Walkthrough.pagePairs total idx ps).map Prod.fst → 5 + 2 * idx ≤ k := by
  intro ps
  induction ps with
  | nil =>
    intro idx k h
    cases h
  | cons p rest ih =>
    intro idx k h
    replace h : k ∈ (5 + 2 * idx) :: (6 + 2 * idx)
        :: (Walkthrough.pagePairs total (idx + 1) rest).map Prod.fst := h
    rcases List.mem_cons.mp h with he | h2
    · omega
    rcases List.mem_cons.mp h2 with he | h3
    · omega
    · have := ih (idx + 1) k h3
      omega

theorem pagePairs_keys_nodup (total : Nat) :
    ∀ (ps : List (List DrawCmd)) (idx : Nat),
      ((Walkthrough.pagePairs total idx ps).map Prod.fst).Nodup := by
  intro ps
  induction ps with
  | nil => intro idx; exact List.nodup_nil
  | cons p rest ih =>
    intro idx
    have hform : (Walkthrough.pagePairs total idx (p :: rest)).map Prod.fst
        = (5 + 2 * idx) :: (6 + 2 * idx)
          :: (Walkthrough.pagePairs total (idx + 1) rest).map Prod.fst := rfl
    rw [hform, List.nodup_cons, List.nodup_cons]
    refine ⟨?_, ?_, ih (idx + 1)⟩
    · intro hmem
      rcases List.mem_cons.mp hmem with he | hm
      · omega
      · have := pagePairs_keys_lb total rest (idx + 1) _ hm
        omega
    · intro hmem
      have := pagePairs_keys_lb total rest (idx + 1) _ hmem
      omega

/-- The object dict of the paginating builder never assigns the same id
twice. -/
theorem objList_keys_nodup (pgs : List (List DrawCmd)) :
    ((Walkthrough.objList pgs).map Prod.fst).Nodup := by
  have hform : (Walkthrough.objList pgs).map Prod.fst
      = 1 :: 3 :: 4 :: 5 :: 6
        :: ((Walkthrough.pagePairs pgs.length 1 pgs).map Prod.fst ++ [2]) := by
    unfold Walkthrough.objList
    simp
  rw [hform]
  rw [List.nodup_cons, List.nodup_cons, List.nodup_cons, List.nodup_cons, List.nodup_cons]
  have hlb : ∀ k, k ∈ (Walkthrough.pagePairs pgs.length 1 pgs).map Prod.fst → 7 ≤ k := by
    intro k hk
    have := pagePairs_keys_lb pgs.length pgs 1 k hk
    omega
  have hsmall : ∀ n : Nat, n ≤ 6 →
      n ∉ (Walkthrough.pagePairs pgs.length 1 pgs).map Prod.fst ++ [2] ∨ n = 2 := by
    intro n hn
    by_cases h2 : n = 2
    · exact Or.inr h2
    · refine Or.inl ?_
      intro hmem
      rcases List.mem_append.mp hmem with hm | hm
      · have := hlb n hm
        omega
      · rw [List.mem_singleton] at hm
        exact h2 hm
  refine ⟨?_, ?_, ?_, ?_, ?_, ?_⟩
  · intro h
    simp only [List.mem_cons, List.mem_append, List.mem_singleton] at h
    rcases h with h | h | h | h | h
    · omega
    · omega
    · omega
    · omega
    · rcases h with h | h
      · have := hlb 1 h
        omega
      · rcases h with h | h
        · omega
        · cases h
  · intro h
    simp only [List.mem_cons, List.mem_append, List.mem_singleton] at h
    rcases h with h | h | h | h
    · omega
    · omega
    · omega
    · rcases h with h | h
      · have := hlb 3 h
        omega
      · rcases h with h | h
        · omega
        · cases h
  · intro h
    simp only [List.mem_cons, List.mem_append, List.mem_singleton] at h
    rcases h with h | h | h
    · omega
    · omega
    · rcases h with h | h
      · have := hlb 4 h
        omega
      · rcases h with h | h
        · omega
        · cases h
  · intro h
    simp only [List.mem_cons, List.mem_append, List.mem_singleton] at h
    rcases h with h | h
    · omega
    · rcases h with h | h
      · have := hlb 5 h
        omega
      · rcases h with h | h
        · omega
        · cases h
  · intro h
    rcases List.mem_append.mp h with hm | hm
    · have := hlb 6 hm
      omega
    · rw [List.mem_singleton] at hm
      omega
  · refine List.Nodup.append (pagePairs_keys_nodup pgs.length pgs 1)
      (List.nodup_singleton 2) ?_
    intro a ha hb
    have := hlb a ha
    rw [List.mem_singleton] at hb
    omega

/-- C9: the assembler is deterministic.  Its output is a pure function of
the builder's page/command state, consulting no clock (the model takes no
other input), and it imposes its own ascending id order on the object
dict: serializing any permutation of the same dict (any insertion order)
yields byte-identical output, the dict's keys being unique.  In
particular any reordering of the canonical dict still produces exactly
`build pgs`. -/
theorem c9_deterministic_assembly :
    (∀ (o₁ o₂ : List (Nat × List Nat)), o₁.Perm o₂ → (o₁.map Prod.fst).Nodup →
        Walkthrough.serializeObjects o₁ = Walkthrough.serializeObjects o₂)
    ∧ (∀ pgs : List (List DrawCmd), ((Walkthrough.objList pgs).map Prod.fst).Nodup)
    ∧ (∀ (pgs : List (List DrawCmd)) (o : List (Nat × List Nat)),
        o.Perm (Walkthrough.objList pgs) →
        Walkthrough.serializeObjects o = Walkthrough.build pgs) := by
  refine ⟨fun o₁ o₂ hp hnd => serializeObjects_perm o₁ o₂ hp hnd,
    fun pgs => objList_keys_nodup pgs, ?_⟩
  intro pgs o hperm
  have hnd : (o.map Prod.fst).Nodup :=
    ((hperm.map Prod.fst).nodup_iff).mpr (objList_keys_nodup pgs)
  exact serializeObjects_perm o (Walkthrough.objList pgs) hperm hnd

/-- Witness: swapping the first two insertions of the one-page dict still
serializes to the canonical build output. -/
theorem c9_deterministic_assembly_witness :
    ((3, Walkthrough.objFont3) :: (1, Walkthrough.objCatalog) :: (4, Walkthrough.objFont4)
        :: (5, Walkthrough.objFont5) :: (6, Walkthrough.objFont6)
        :: (Walkthrough.pagePairs 1 1 [[]] ++ [(2, Walkthrough.pageTreeBytes [[]])])).Perm
      (Walkthrough.objList [[]])
    ∧ Walkthrough.serializeObjects
        ((3, Walkthrough.objFont3) :: (1, Walkthrough.objCatalog) :: (4, Walkthrough.objFont4)
          :: (5, Walkthrough.objFont5) :: (6, Walkthrough.objFont6)
          :: (Walkthrough.pagePairs 1 1 [[]] ++ [(2, Walkthrough.pageTreeBytes [[]])]))
      = Walkthrough.build [[]] :=
  ⟨List.Perm.swap (1, Walkthrough.objCatalog) (3, Walkthrough.objFont3) _,
    c9_deterministic_assembly.2.2 [[]] _
      (List.Perm.swap (1, Walkthrough.objCatalog) (3, Walkthrough.objFont3) _)⟩
